import Mathlib

/-!
Verification of the ingestion pipeline in `tools/scrape.py`.

The Python source is shallowly embedded: JSON-like dynamic values become the
inductive `JVal`; raw records and documents become association lists of
`String × JVal`; the regex-based string transformations become executable
functions over `List Char`; fallible dynamic operations (Python expressions
that can raise, e.g. `.strip()` on a non-string) return `Except Unit`.

External collaborators (the network fetcher, the optional `feedparser` /
`BeautifulSoup` based parser variants, the real file system and clock) are
modelled as inputs: the orchestrator loop takes the per-source fetch/parse
outcome as data, the store is an association list from filename to document,
and the run date is a parameter.
-/

set_option maxHeartbeats 1000000

namespace Scrape

/-- JSON-like dynamic value (Python scalars, lists and dicts as produced by
`json.loads`; numbers restricted to integers, floats are not used by any
claim). -/
inductive JVal where
  | null : JVal
  | bool : Bool → JVal
  | num : Int → JVal
  | str : String → JVal
  | arr : List JVal → JVal
  | obj : List (String × JVal) → JVal

/-- Python truthiness: `None`, `False`, `0`, `""`, `[]`, `{}` are falsy. -/
def jTruthy : JVal → Bool
  | .null => false
  | .bool b => b
  | .num n => n != 0
  | .str s => s != ""
  | .arr l => !l.isEmpty
  | .obj l => !l.isEmpty

/-- First-occurrence lookup in an association list (Python dicts have unique
keys, so this is `dict` lookup). -/
def alGet (l : List (String × JVal)) (k : String) : Option JVal :=
  match l with
  | [] => none
  | (k', v) :: t => if k' = k then some v else alGet t k

/-- `d.get(k)` — missing key yields `None`. -/
def jGet (r : List (String × JVal)) (k : String) : JVal :=
  (alGet r k).getD .null

/-- Python `a or b`: first truthy operand, else the last. -/
def jOr (a b : JVal) : JVal :=
  if jTruthy a then a else b

/-- `d[k] = v` on a dict: replace the value at an existing key in place,
otherwise append the new key at the end (insertion order semantics). -/
def alSet (l : List (String × JVal)) (k : String) (v : JVal) : List (String × JVal) :=
  match l with
  | [] => [(k, v)]
  | (k', v') :: t => if k' = k then (k', v) :: t else (k', v') :: alSet t k v

-- ---------------------------------------------------------------------------
-- Character/string helpers mirroring the Python `str` methods used by the
-- source (ASCII behaviour; the source only relies on ASCII here).
-- ---------------------------------------------------------------------------

def isAsciiDigit (c : Char) : Bool := '0' ≤ c ∧ c ≤ '9'

def isAsciiAlpha (c : Char) : Bool := ('a' ≤ c ∧ c ≤ 'z') ∨ ('A' ≤ c ∧ c ≤ 'Z')

def isAsciiLower (c : Char) : Bool := 'a' ≤ c ∧ c ≤ 'z'

/-- Whitespace stripped by `str.strip()` and matched by `\s` (ASCII subset). -/
def isPyWs (c : Char) : Bool :=
  c = ' ' ∨ c = '\t' ∨ c = '\n' ∨ c = '\r' ∨ c = '\x0b' ∨ c = '\x0c'

def lowerChar (c : Char) : Char :=
  if 'A' ≤ c ∧ c ≤ 'Z' then Char.ofNat (c.toNat + 32) else c

def lowerL (l : List Char) : List Char := l.map lowerChar

/-- `str.lower()`. -/
def pyLower (s : String) : String := ⟨lowerL s.data⟩

def dropTrailing (p : Char → Bool) (l : List Char) : List Char :=
  (l.reverse.dropWhile p).reverse

def stripL (l : List Char) : List Char :=
  dropTrailing isPyWs (l.dropWhile isPyWs)

/-- `str.strip()` with no argument. -/
def pyStrip (s : String) : String := ⟨stripL s.data⟩

def startsL (p : List Char) (l : List Char) : Bool :=
  match p, l with
  | [], _ => true
  | _ :: _, [] => false
  | a :: p', b :: l' => a = b && startsL p' l'

/-- `str.startswith(pat)`. -/
def pyStarts (s pat : String) : Bool := startsL pat.data s.data

def endsL (p : List Char) (l : List Char) : Bool :=
  startsL p.reverse l.reverse

/-- `str.endswith(pat)`. -/
def pyEnds (s pat : String) : Bool := endsL pat.data s.data

def hasSubL (p : List Char) : List Char → Bool
  | [] => startsL p []
  | c :: t => startsL p (c :: t) || hasSubL p t

/-- Python `pat in s` substring containment. -/
def pyContains (s pat : String) : Bool := hasSubL pat.data s.data

def ltL : List Char → List Char → Bool
  | [], [] => false
  | [], _ :: _ => true
  | _ :: _, [] => false
  | a :: as, b :: bs => if a < b then true else if b < a then false else ltL as bs

/-- Python `a < b` on strings: lexicographic by code point. -/
def pyLt (a b : String) : Bool := ltL a.data b.data

/-- Split a list at the first occurrence of `c`; `none` when `c` is absent
(models `str.partition` guarded by an `in` test). -/
def splitFirst (c : Char) : List Char → Option (List Char × List Char)
  | [] => none
  | x :: t =>
    if x = c then some ([], t)
    else (splitFirst c t).map (fun ab => (x :: ab.1, ab.2))

-- ---------------------------------------------------------------------------
-- Regex substitution models.
-- ---------------------------------------------------------------------------

/-- `re.sub` where the pattern is a single character class (no quantifier):
every matching character is replaced by `repl`. -/
def subChar (p : Char → Bool) (repl : List Char) : List Char → List Char
  | [] => []
  | c :: t => (if p c then repl else [c]) ++ subChar p repl t

/-- `re.sub` where the pattern is `[class]+`: each maximal run of matching
characters is replaced by `repl`.  The `inRun` flag records whether the
previous character was part of a run. -/
def subRunsAux (p : Char → Bool) (repl : List Char) (inRun : Bool) : List Char → List Char
  | [] => []
  | c :: t =>
    if p c then (if inRun then [] else repl) ++ subRunsAux p repl true t
    else c :: subRunsAux p repl false t

def subRuns (p : Char → Bool) (repl : List Char) (l : List Char) : List Char :=
  subRunsAux p repl false l

-- ---------------------------------------------------------------------------
-- `slugify` (source) and the spec's description of it.
-- ---------------------------------------------------------------------------

def slugChar (c : Char) : Bool := isAsciiLower c ∨ isAsciiDigit c ∨ c = '-'

def isWsUnderscore (c : Char) : Bool := isPyWs c ∨ c = '_'

/-- `slugify` from the source:
`s.lower()`; `re.sub(r"[\s_]+", "-", s)`; `re.sub(r"[^a-z0-9-]", "", s)`;
`re.sub(r"-+", "-", s).strip("-")`; `s[:max_len] or "post"`. -/
def slugify (s : String) (max_len : Nat := 48) : String :=
  let l := lowerL s.data
  let l := subRuns isWsUnderscore ['-'] l
  let l := subChar (fun c => !slugChar c) [] l
  let l := subRuns (fun c => c = '-') ['-'] l
  let l := (l.dropWhile (· = '-')).reverse.dropWhile (· = '-') |>.reverse
  let l := l.take max_len
  if l.isEmpty then "post" else ⟨l⟩

/-- `make_slug`: `slugify(candidate) or slugify(fallback)`. -/
def make_slug (candidate : String) (fallback : String := "post") : String :=
  let s := slugify candidate
  if s = "" then slugify fallback else s

-- ---------------------------------------------------------------------------
-- PII scrubbing: EMAIL_RE and PHONE_RE with `re.sub` leftmost-scan semantics.
-- A matcher returns the length of the match the backtracking engine finds at
-- the current position, or `none`.
-- ---------------------------------------------------------------------------

/-- `[A-Z0-9._%+-]` with IGNORECASE. -/
def emailLocalChar (c : Char) : Bool :=
  isAsciiAlpha c ∨ isAsciiDigit c ∨ c = '.' ∨ c = '_' ∨ c = '%' ∨ c = '+' ∨ c = '-'

/-- `[A-Z0-9.-]` with IGNORECASE. -/
def emailDomChar (c : Char) : Bool :=
  isAsciiAlpha c ∨ isAsciiDigit c ∨ c = '.' ∨ c = '-'

def letterRunLen (l : List Char) : Nat := (l.takeWhile isAsciiAlpha).length

/-- Backtracking for `[A-Z0-9.-]+\.[A-Z]{2,}` within the maximal domain-class
run `dom`: the engine shrinks the `+` from the right, so the largest split
index `k ≥ 1` with `dom[k] = '.'` followed by at least two letters wins; the
match then extends over the maximal letter run after the dot. -/
def emailDomEnd (dom : List Char) : Option Nat :=
  (List.range dom.length).reverse.findSome? fun k =>
    if 1 ≤ k ∧ dom.getD k ' ' = '.' ∧ 2 ≤ letterRunLen (dom.drop (k + 1)) then
      some (k + 1 + letterRunLen (dom.drop (k + 1)))
    else none

/-- Length of the match of `EMAIL_RE` at the head of `l`, if any. -/
def emailMatchLen (l : List Char) : Option Nat :=
  let loc := l.takeWhile emailLocalChar
  if loc.isEmpty then none
  else
    match l.drop loc.length with
    | '@' :: rest =>
      let dom := rest.takeWhile emailDomChar
      (emailDomEnd dom).map (fun e => loc.length + 1 + e)
    | _ => none

/-- Consume exactly `n` ASCII digits, returning the remainder. -/
def takeDigitsN (n : Nat) (l : List Char) : Option (List Char) :=
  if (l.take n).length = n ∧ (l.take n).all isAsciiDigit then some (l.drop n) else none

/-- `-?\d{4}` : returns consumed length. -/
def dashD4 (l : List Char) : Option Nat :=
  let d := if l.head? = some '-' then 1 else 0
  ((takeDigitsN 4 (l.drop d)).map fun _ => d + 4)

/-- `-?\d{3,4}-?\d{4}` (greedy, 4 digits tried before 3). -/
def dashD34D4 (l : List Char) : Option Nat :=
  let d := if l.head? = some '-' then 1 else 0
  let l1 := l.drop d
  match (takeDigitsN 4 l1).bind (fun r => (dashD4 r).map (fun n => d + 4 + n)) with
  | some n => some n
  | none => (takeDigitsN 3 l1).bind (fun r => (dashD4 r).map (fun n => d + 3 + n))

/-- First alternative `(?:\+?82|0)1[0-9]-?\d{3,4}-?\d{4}`. -/
def phoneAlt1 (l : List Char) : Option Nat :=
  let pre : Option Nat :=
    if startsL ['+', '8', '2'] l then some 3
    else if startsL ['8', '2'] l then some 2
    else if startsL ['0'] l then some 1
    else none
  pre.bind fun np =>
    match l.drop np with
    | '1' :: d :: rest =>
      if isAsciiDigit d then (dashD34D4 rest).map (fun n => np + 2 + n) else none
    | _ => none

/-- Second alternative `\d{2,4}-\d{3,4}-\d{4}` (greedy groups). -/
def phoneAlt2 (l : List Char) : Option Nat :=
  ([4, 3, 2] : List Nat).findSome? fun n1 =>
    (takeDigitsN n1 l).bind fun r1 =>
      match r1 with
      | '-' :: r1' =>
        ([4, 3] : List Nat).findSome? fun n2 =>
          (takeDigitsN n2 r1').bind fun r2 =>
            match r2 with
            | '-' :: r2' => (takeDigitsN 4 r2').map fun _ => n1 + 1 + n2 + 1 + 4
            | _ => none
      | _ => none

/-- Length of the match of `PHONE_RE` at the head of `l`, if any. -/
def phoneMatchLen (l : List Char) : Option Nat :=
  match phoneAlt1 l with
  | some n => some n
  | none => phoneAlt2 l

/-- `re.sub(pattern, repl, s)` leftmost scan: at each position, replace the
match found there and resume after it, else keep the character.  The fuel
argument (initially the length of the list) only bounds the recursion; it is
never exhausted since every step consumes at least one character. -/
def subScanFuel (m : List Char → Option Nat) (repl : List Char) :
    Nat → List Char → List Char
  | _, [] => []
  | 0, l => l
  | fuel + 1, c :: t =>
    match m (c :: t) with
    | some (n + 1) => repl ++ subScanFuel m repl fuel (t.drop n)
    | _ => c :: subScanFuel m repl fuel t

def pySubAll (m : List Char → Option Nat) (repl : List Char) (l : List Char) : List Char :=
  subScanFuel m repl l.length l

/-- `scrub_pii`: email substitution, then phone substitution, both with the
marker `[redacted]`. -/
def scrub_pii (s : String) : String :=
  ⟨pySubAll phoneMatchLen "[redacted]".data (pySubAll emailMatchLen "[redacted]".data s.data)⟩

/-- Whether some position of `l` matches `m` (used to state that a string
contains an email-like / phone-like substring). -/
def hasMatch (m : List Char → Option Nat) : List Char → Bool
  | [] => (m []).isSome
  | c :: t => (m (c :: t)).isSome || hasMatch m t

def containsEmailLike (s : String) : Bool := hasMatch emailMatchLen s.data

-- ---------------------------------------------------------------------------
-- `parse_date`: strptime with the six formats, then the fallback regex scan.
-- ---------------------------------------------------------------------------

/-- Ordered-alternative combinator with backtracking into the continuation,
mirroring regex alternation: a later alternative is tried when an earlier one
(or the rest of the pattern after it) fails. -/
def tryAlts {α β : Type} (alts : List (List Char → Option (α × List Char)))
    (k : α → List Char → Option β) (l : List Char) : Option β :=
  match alts with
  | [] => none
  | a :: rest =>
    match a l with
    | some (x, l') =>
      match k x l' with
      | some b => some b
      | none => tryAlts rest k l
    | none => tryAlts rest k l

def digitVal (c : Char) : Nat := c.toNat - '0'.toNat

/-- `%Y` : exactly four digits. -/
def parseY4 (l : List Char) : Option (Nat × List Char) :=
  match l with
  | a :: b :: c :: d :: rest =>
    if isAsciiDigit a ∧ isAsciiDigit b ∧ isAsciiDigit c ∧ isAsciiDigit d then
      some (digitVal a * 1000 + digitVal b * 100 + digitVal c * 10 + digitVal d, rest)
    else none
  | _ => none

def litP (c : Char) (l : List Char) : Option (Unit × List Char) :=
  match l with
  | x :: t => if x = c then some ((), t) else none
  | [] => none

/-- `%m` alternatives in CPython TimeRE order: `1[0-2] | 0[1-9] | [1-9]`. -/
def mAlts : List (List Char → Option (Nat × List Char)) :=
  [fun l => match l with
    | '1' :: c :: t => if '0' ≤ c ∧ c ≤ '2' then some (10 + digitVal c, t) else none
    | _ => none,
   fun l => match l with
    | '0' :: c :: t => if '1' ≤ c ∧ c ≤ '9' then some (digitVal c, t) else none
    | _ => none,
   fun l => match l with
    | c :: t => if '1' ≤ c ∧ c ≤ '9' then some (digitVal c, t) else none
    | [] => none]

/-- `%d` alternatives in CPython TimeRE order: `3[01] | [12]\d | 0[1-9] | [1-9]`. -/
def dAlts : List (List Char → Option (Nat × List Char)) :=
  [fun l => match l with
    | '3' :: c :: t => if c = '0' ∨ c = '1' then some (30 + digitVal c, t) else none
    | _ => none,
   fun l => match l with
    | a :: c :: t =>
      if (a = '1' ∨ a = '2') ∧ isAsciiDigit c then
        some (digitVal a * 10 + digitVal c, t)
      else none
    | _ => none,
   fun l => match l with
    | '0' :: c :: t => if '1' ≤ c ∧ c ≤ '9' then some (digitVal c, t) else none
    | _ => none,
   fun l => match l with
    | c :: t => if '1' ≤ c ∧ c ≤ '9' then some (digitVal c, t) else none
    | [] => none]

/-- `strptime` with format `%Y<sep>%m<sep>%d` (full-string match required). -/
def fmtYmd (sep : Char) (l : List Char) : Option (Nat × Nat × Nat) :=
  (parseY4 l).bind fun yl =>
    (litP sep yl.2).bind fun sl =>
      tryAlts mAlts
        (fun m l3 =>
          (litP sep l3).bind fun sl2 =>
            tryAlts dAlts (fun d l5 => if l5.isEmpty then some (yl.1, m, d) else none) sl2.2)
        sl.2

/-- `strptime` with format `%Y%m%d`. -/
def fmtYmdCompact (l : List Char) : Option (Nat × Nat × Nat) :=
  (parseY4 l).bind fun yl =>
    tryAlts mAlts
      (fun m l2 => tryAlts dAlts (fun d l3 => if l3.isEmpty then some (yl.1, m, d) else none) l2)
      yl.2

/-- `strptime` with format `%d<sep>%m<sep>%Y`. -/
def fmtDmy (sep : Char) (l : List Char) : Option (Nat × Nat × Nat) :=
  tryAlts dAlts
    (fun d l1 =>
      (litP sep l1).bind fun sl =>
        tryAlts mAlts
          (fun m l3 =>
            (litP sep l3).bind fun sl2 =>
              (parseY4 sl2.2).bind fun yl =>
                if yl.2.isEmpty then some (yl.1, m, d) else none)
          sl.2)
    l

def isLeap (y : Nat) : Bool := y % 4 = 0 ∧ (y % 100 ≠ 0 ∨ y % 400 = 0)

def monthLen (y m : Nat) : Nat :=
  if m = 2 then (if isLeap y then 29 else 28)
  else if m = 4 ∨ m = 6 ∨ m = 9 ∨ m = 11 then 30
  else 31

/-- Whether `datetime.date(y, m, d)` succeeds. -/
def validDate (y m d : Nat) : Bool :=
  1 ≤ y ∧ y ≤ 9999 ∧ 1 ≤ m ∧ m ≤ 12 ∧ 1 ≤ d ∧ d ≤ monthLen y m

def padNum (width n : Nat) : String :=
  let s := toString n
  ⟨List.replicate (width - s.length) '0' ++ s.data⟩

/-- `date(y, m, d).isoformat()`. -/
def isoDate (y m d : Nat) : String :=
  padNum 4 y ++ "-" ++ padNum 2 m ++ "-" ++ padNum 2 d

/-- Fallback pattern `(20\d{2}|19\d{2})[-./](\d{1,2})[-./](\d{1,2})` matched at
the head of `l`. -/
def searchDateAt (l : List Char) : Option (Nat × Nat × Nat) :=
  let year : Option (Nat × List Char) :=
    match l with
    | '2' :: '0' :: a :: b :: t =>
      if isAsciiDigit a ∧ isAsciiDigit b then some (2000 + digitVal a * 10 + digitVal b, t)
      else none
    | '1' :: '9' :: a :: b :: t =>
      if isAsciiDigit a ∧ isAsciiDigit b then some (1900 + digitVal a * 10 + digitVal b, t)
      else none
    | _ => none
  let isSep : Char → Bool := fun c => c = '-' ∨ c = '.' ∨ c = '/'
  let d12 : List (List Char → Option (Nat × List Char)) :=
    [fun l => match l with
      | a :: b :: t =>
        if isAsciiDigit a ∧ isAsciiDigit b then some (digitVal a * 10 + digitVal b, t) else none
      | _ => none,
     fun l => match l with
      | a :: t => if isAsciiDigit a then some (digitVal a, t) else none
      | [] => none]
  year.bind fun yl =>
    match yl.2 with
    | s1 :: t1 =>
      if isSep s1 then
        tryAlts d12
          (fun mo l2 =>
            match l2 with
            | s2 :: t2 =>
              if isSep s2 then tryAlts d12 (fun da _ => some (yl.1, mo, da)) t2 else none
            | [] => none)
          t1
      else none
    | [] => none

/-- `re.search` scan of the fallback pattern (leftmost position wins). -/
def searchDate : List Char → Option (Nat × Nat × Nat)
  | [] => none
  | c :: t =>
    match searchDateAt (c :: t) with
    | some r => some r
    | none => searchDate t

/-- `parse_date` from the source: try the six strptime layouts in order
(`ValueError`s suppressed), then the fallback regex scan whose match is
validated once (an invalid extracted date yields `None` directly). -/
def parse_date (s : String) : Option String :=
  if s = "" then none
  else
    let l := stripL s.data
    let fmts : List (List Char → Option (Nat × Nat × Nat)) :=
      [fmtYmd '-', fmtYmd '/', fmtYmd '.', fmtYmdCompact, fmtDmy '-', fmtDmy '/']
    let viaFmt : Option String :=
      fmts.findSome? fun f =>
        match f l with
        | some (y, m, d) => if validDate y m d then some (isoDate y m d) else none
        | none => none
    match viaFmt with
    | some r => some r
    | none =>
      match searchDate l with
      | some (y, m, d) => if validDate y m d then some (isoDate y m d) else none
      | none => none

-- ---------------------------------------------------------------------------
-- `to_https` with a model of `urllib.parse.urlsplit` / `urlunsplit`.
-- ---------------------------------------------------------------------------

def schemeChar (c : Char) : Bool :=
  isAsciiAlpha c ∨ isAsciiDigit c ∨ c = '+' ∨ c = '-' ∨ c = '.'

def removeUnsafe (l : List Char) : List Char :=
  l.filter fun c => ¬(c = '\t' ∨ c = '\r' ∨ c = '\n')

def urlDelim (c : Char) : Bool := c = '/' ∨ c = '?' ∨ c = '#'

/-- `urllib.parse.urlsplit` (CPython 3.11, allow_fragments, no default
scheme).  The `ValueError` raised for bracketed netlocs is modelled as
`Except.error`; CPython additionally validates the *contents* of a matched
`[...]` host (accepting valid IPv6 literals), which this model approximates
by rejecting every bracketed netloc — no claim exercises one.  The WHATWG
left-strip of control/space characters is a no-op here because `to_https`
only reaches `urlsplit` with a stripped string starting with `h`, and the
NFKC netloc check never fires for ASCII netlocs. -/
def urlsplitL (url0 : List Char) :
    Except Unit (List Char × List Char × List Char × List Char × List Char) :=
  let url1 := removeUnsafe url0
  let su : List Char × List Char :=
    match splitFirst ':' url1 with
    | some (a, b) =>
      if (!a.isEmpty && (a.head?.map isAsciiAlpha).getD false && a.all schemeChar) then
        (lowerL a, b)
      else ([], url1)
    | none => ([], url1)
  let scheme := su.1
  let url2 := su.2
  let nu : Except Unit (List Char × List Char) :=
    if startsL ['/', '/'] url2 then
      let netloc := (url2.drop 2).takeWhile (fun c => ¬ urlDelim c)
      if netloc.contains '[' ∨ netloc.contains ']' then .error ()
      else .ok (netloc, (url2.drop 2).drop netloc.length)
    else .ok ([], url2)
  match nu with
  | .error e => .error e
  | .ok (netloc, url3) =>
    let uf : List Char × List Char :=
      match splitFirst '#' url3 with
      | some (a, b) => (a, b)
      | none => (url3, [])
    let uq : List Char × List Char :=
      match splitFirst '?' uf.1 with
      | some (a, b) => (a, b)
      | none => (uf.1, [])
    .ok (scheme, netloc, uq.1, uq.2, uf.2)

/-- `urllib.parse.uses_netloc` (CPython 3.11). -/
def uses_netloc : List String :=
  ["", "ftp", "http", "gopher", "nntp", "telnet", "imap", "wais", "file", "mms",
   "https", "shttp", "snews", "prospero", "rtsp", "rtsps", "rtspu", "rsync",
   "svn", "svn+ssh", "sftp", "nfs", "git", "git+ssh", "ws", "wss"]

/-- `urllib.parse.urlunsplit` (CPython 3.11): `//` is reinstated when there is
a netloc, or when the scheme conventionally uses one and the path does not
already begin with `//`. -/
def urlunsplitL (scheme netloc path query frag : List Char) : List Char :=
  let url := path
  let url :=
    if netloc ≠ [] ∨
        (scheme ≠ [] ∧ uses_netloc.contains ⟨scheme⟩ ∧ ¬ startsL ['/', '/'] url) then
      ['/', '/'] ++ netloc ++ (if url ≠ [] ∧ ¬ startsL ['/'] url then '/' :: url else url)
    else url
  let url := if scheme ≠ [] then scheme ++ ':' :: url else url
  let url := if query ≠ [] then url ++ '?' :: query else url
  if frag ≠ [] then url ++ '#' :: frag else url

/-- `HTTPS_RE` : `^https://` with IGNORECASE. -/
def httpsRe (s : String) : Bool := startsL "https://".data (lowerL s.data)

/-- `to_https` from the source.  A `ValueError` escaping `urlsplit` is the
`Except.error` case. -/
def to_https (url : String) : Except Unit (Option String) :=
  if url = "" then .ok none
  else
    let u := stripL url.data
    if ¬ startsL "http".data (lowerL u) then .ok none
    else
      match urlsplitL u with
      | .error e => .error e
      | .ok (scheme, netloc, path, query, frag) =>
        let scheme' :=
          if scheme = "http".data ∨ scheme = "https".data then "https".data else scheme
        let rebuilt : String := ⟨urlunsplitL scheme' netloc path query frag⟩
        .ok (if httpsRe rebuilt then some rebuilt else none)

-- ---------------------------------------------------------------------------
-- `parse_api`: the structured-api parser.  `json.loads` is modelled as the
-- optional `JVal` input (`none` = undecodable payload).
-- ---------------------------------------------------------------------------

/-- A raw record: the loosely-typed mapping a parser yields per item. -/
abbrev RawRecord := List (String × JVal)

/-- `parse_api` from the source: a top-level list contributes its dict
elements; a top-level dict contributes, for each of the keys `items`, `data`,
`results` in that order, the dict elements of the list stored there (note:
the loop does not stop at the first key that holds a list); anything else
yields the empty sequence. -/
def parse_api (payload : Option JVal) : List RawRecord :=
  match payload with
  | some (.arr l) =>
    l.foldl (fun acc r => match r with | .obj f => acc ++ [f] | _ => acc) []
  | some (.obj fields) =>
    (["items", "data", "results"] : List String).foldl
      (fun acc key =>
        match alGet fields key with
        | some (.arr seq) =>
          seq.foldl (fun a r => match r with | .obj f => a ++ [f] | _ => a) acc
        | _ => acc)
      []
  | _ => []

-- ---------------------------------------------------------------------------
-- `str()` / `repr()` / `json.dumps` renderings (used by the scrub loop on
-- non-string list elements and by validation log messages).  String escaping
-- models the common cases (backslash, quotes, \n, \r, \t); `repr`'s dynamic
-- quote choice and non-printable escapes are approximated by single quotes.
-- ---------------------------------------------------------------------------

def reprEsc1 (c : Char) : List Char :=
  if c = '\\' then ['\\', '\\']
  else if c = '\'' then ['\\', '\'']
  else if c = '\n' then ['\\', 'n']
  else if c = '\r' then ['\\', 'r']
  else if c = '\t' then ['\\', 't']
  else [c]

def reprEsc (s : String) : String := ⟨s.data.flatMap reprEsc1⟩

mutual

/-- Python `repr`. -/
def pyRepr : JVal → String
  | .null => "None"
  | .bool b => if b then "True" else "False"
  | .num n => toString n
  | .str s => "'" ++ reprEsc s ++ "'"
  | .arr l => "[" ++ pyReprList l ++ "]"
  | .obj l => "\x7b" ++ pyReprObj l ++ "\x7d"

def pyReprList : List JVal → String
  | [] => ""
  | [x] => pyRepr x
  | x :: y :: t => pyRepr x ++ ", " ++ pyReprList (y :: t)

def pyReprObj : List (String × JVal) → String
  | [] => ""
  | [(k, v)] => "'" ++ reprEsc k ++ "': " ++ pyRepr v
  | (k, v) :: e :: t => "'" ++ reprEsc k ++ "': " ++ pyRepr v ++ ", " ++ pyReprObj (e :: t)

end

/-- Python `str()`: identity on strings, `repr` otherwise. -/
def pyStr : JVal → String
  | .str s => s
  | v => pyRepr v

def jsonEsc1 (c : Char) : List Char :=
  if c = '\\' then ['\\', '\\']
  else if c = '"' then ['\\', '"']
  else if c = '\n' then ['\\', 'n']
  else if c = '\r' then ['\\', 'r']
  else if c = '\t' then ['\\', 't']
  else [c]

def jsonEsc (s : String) : String := ⟨s.data.flatMap jsonEsc1⟩

mutual

/-- `json.dumps(..., ensure_ascii=False)` with default separators. -/
def jsonDumps : JVal → String
  | .null => "null"
  | .bool b => if b then "true" else "false"
  | .num n => toString n
  | .str s => "\"" ++ jsonEsc s ++ "\""
  | .arr l => "[" ++ jsonDumpsList l ++ "]"
  | .obj l => "\x7b" ++ jsonDumpsObj l ++ "\x7d"

def jsonDumpsList : List JVal → String
  | [] => ""
  | [x] => jsonDumps x
  | x :: y :: t => jsonDumps x ++ ", " ++ jsonDumpsList (y :: t)

def jsonDumpsObj : List (String × JVal) → String
  | [] => ""
  | [(k, v)] => "\"" ++ jsonEsc k ++ "\": " ++ jsonDumps v
  | (k, v) :: e :: t => "\"" ++ jsonEsc k ++ "\": " ++ jsonDumps v ++ ", " ++ jsonDumpsObj (e :: t)

end

-- ---------------------------------------------------------------------------
-- Normalization & validation.
-- ---------------------------------------------------------------------------

/-- The `Source` dataclass. -/
structure Source where
  id : String
  type : String
  url : String
  selectors : Option (List (String × String)) := none
  mapping : Option (List (String × JVal)) := none
  rateLimit : Option (List (String × Int)) := none
  sourceName : Option String := none
  postType : Option String := none

/-- A canonical post document / a stored JSON document: a dict. -/
abbrev Doc := List (String × JVal)

/-- The error payload of `Result.err`: kind, userMessage, logMessage plus
free-form extra context (stringly-valued in every call site). -/
structure Fail where
  kind : String
  userMessage : String
  logMessage : String
  extra : List (String × String) := []
  deriving DecidableEq, Repr

/-- Outcome of `normalize_record` (when no exception escapes). -/
inductive NormRes where
  | okRes (doc : Doc) (slug : String)
  | errRes (f : Fail)

/-- Python `a or b` for an optional string against a string (used for
`src.sourceName or src.id`). -/
def pyOptOr (a : Option String) (b : String) : String :=
  match a with
  | some s => if s = "" then b else s
  | none => b

/-- `.strip()` applied to a dynamic value: raises unless it is a string. -/
def pyStripJ (v : JVal) : Except Unit String :=
  match v with
  | .str s => .ok (pyStrip s)
  | _ => .error ()

/-- `to_https` applied to a dynamic value: falsy input yields `None`, a
truthy non-string raises (`.strip()` inside `to_https`). -/
def toHttpsJ (v : JVal) : Except Unit (Option String) :=
  if jTruthy v then
    match v with
    | .str s => to_https s
    | _ => .error ()
  else .ok none

/-- `parse_date` applied to a dynamic value, with the same raising rule. -/
def parse_dateJ (v : JVal) : Except Unit (Option String) :=
  if jTruthy v then
    match v with
    | .str s => .ok (parse_date s)
    | _ => .error ()
  else .ok none

/-- `choose_type`: explicit (truthy) `postType`, else the `"job"`-substring
heuristic on the id, else `"notice"`. -/
def choose_type (src : Source) : String :=
  let pt := src.postType.getD ""
  if pt ≠ "" then pt
  else if pyContains (pyLower src.id) "job" then "job" else "notice"

/-- `build_id` — note the `slug` parameter is unused, as in the source. -/
def build_id (date_published : String) (slug : String) (seq : Nat) : String :=
  "ime-" ++ date_published ++ "-" ++ padNum 4 seq

/-- `(r.get("title") or r.get("name") or "").strip()`. -/
def resolveTitle (r : RawRecord) : Except Unit String :=
  pyStripJ (jOr (jGet r "title") (jOr (jGet r "name") (.str "")))

/-- Lines 369–375: the link chain with fallback to the source URL. -/
def resolveLink (src : Source) (r : RawRecord) : Except Unit String :=
  match pyStripJ (jOr (jGet r "link") (jOr (jGet r "url") (.str ""))) with
  | .error e => .error e
  | .ok s0 =>
    let arg := if s0 = "" then src.url else s0
    match to_https arg with
    | .error e => .error e
    | .ok o =>
      let link := o.getD ""
      if link = "" then
        match to_https src.url with
        | .error e => .error e
        | .ok o2 => .ok (o2.getD "")
      else .ok link

/-- `(r.get("deadline") or r.get("date") or r.get("closing") or "").strip()`. -/
def resolveRawDeadline (r : RawRecord) : Except Unit String :=
  pyStripJ (jOr (jGet r "deadline") (jOr (jGet r "date") (jOr (jGet r "closing") (.str ""))))

/-- `parse_date((r.get("date_published") or r.get("published") or
r.get("created") or now)) or now`. -/
def resolveDatePub (r : RawRecord) (now : String) : Except Unit String :=
  match parse_dateJ (jOr (jGet r "date_published")
      (jOr (jGet r "published") (jOr (jGet r "created") (.str now)))) with
  | .error e => .error e
  | .ok o => .ok (o.getD now)

/-- `(r.get("subtitle") or r.get("summary") or "").strip()`. -/
def resolveSubtitle (r : RawRecord) : Except Unit String :=
  pyStripJ (jOr (jGet r "subtitle") (jOr (jGet r "summary") (.str "")))

/-- `r.get("tags") if isinstance(r.get("tags"), list) else []`. -/
def resolveTags (r : RawRecord) : List JVal :=
  match jGet r "tags" with
  | .arr l => l
  | _ => []

/-- `mapping.get(k, default)`. -/
def mget (mapping : List (String × JVal)) (k : String) (default : JVal) : JVal :=
  (alGet mapping k).getD default

/-- The category-specific payload dict (lines 393–439). -/
def buildPayload (post_type : String) (mapping : List (String × JVal)) (r : RawRecord)
    (title link : String) : Except Unit JVal :=
  if post_type = "job" then
    match toHttpsJ (jOr (jGet r "apply_url") (.str link)) with
    | .error e => .error e
    | .ok au =>
      let applyUrl := if au.getD "" = "" then link else au.getD ""
      .ok (.obj [
        ("company", mget mapping "company" (jOr (jGet r "company") (jOr (jGet r "org") (.str "")))),
        ("role", jOr (jGet r "role") (.str title)),
        ("location", jOr (jGet r "location") (.str "")),
        ("employment_type", mget mapping "employment_type"
          (jOr (jGet r "employment_type") (jOr (jGet r "type") (.str "")))),
        ("salary_min", jGet r "salary_min"),
        ("salary_max", jGet r "salary_max"),
        ("apply_url", .str applyUrl),
        ("requirements", jOr (jGet r "requirements") (.arr [])),
        ("nice_to_have", jOr (jGet r "nice_to_have") (.arr []))])
  else if post_type = "scholarship" then
    .ok (.obj [
      ("amount_max", jGet r "amount_max"),
      ("eligible_years", jOr (jGet r "eligible_years") (.arr [])),
      ("gpa_min", jGet r "gpa_min"),
      ("income_bracket_max", jGet r "income_bracket_max"),
      ("major", jGet r "major"),
      ("region", jGet r "region"),
      ("requirements", jOr (jGet r "requirements") (.arr [])),
      ("documents", jOr (jGet r "documents") (.arr [])),
      ("apply_steps", jOr (jGet r "apply_steps") (.arr [])),
      ("notes", jOr (jGet r "notes") (.arr []))])
  else if post_type = "activity" then
    .ok (.obj [
      ("organization", jOr (jGet r "organization")
        (jOr (jGet r "company") (mget mapping "company" (.str "")))),
      ("period", jOr (jGet r "period") (.str "")),
      ("location", jOr (jGet r "location") (.str "")),
      ("benefits", jOr (jGet r "benefits") (.arr [])),
      ("requirements", jOr (jGet r "requirements") (.arr [])),
      ("selection", jOr (jGet r "selection") (.arr [])),
      ("contacts", jOr (jGet r "contacts") (.arr []))])
  else if post_type = "grad" then
    .ok (.obj [
      ("university", jOr (jGet r "university") (jOr (jGet r "org") (.str ""))),
      ("program", jOr (jGet r "program") (.str title)),
      ("round", jOr (jGet r "round") (.str "")),
      ("tuition_per_semester", jGet r "tuition_per_semester"),
      ("stipend", jGet r "stipend"),
      ("contact", jOr (jGet r "contact") (.str ""))])
  else
    .ok (jOr (jGet r "payload") (.obj []))

/-- The keys the scrub loop touches (line 442), in iteration order. -/
def scrubKeys : List String :=
  ["requirements", "nice_to_have", "documents", "apply_steps", "notes", "benefits", "selection"]

/-- `scrub_pii(str(x))` per list element. -/
def scrubElem (x : JVal) : JVal := .str (scrub_pii (pyStr x))

/-- The scrub loop body over а payload dict: for each key of `scrubKeys`, if
its value is a list, replace it by the element-wise scrubbed list. -/
def scrubFields (fields : List (String × JVal)) : List (String × JVal) :=
  scrubKeys.foldl
    (fun fs key =>
      match alGet fs key with
      | some (.arr xs) => alSet fs key (.arr (xs.map scrubElem))
      | _ => fs)
    fields

/-- The scrub loop: `payload.get` on a non-dict payload raises. -/
def scrubStep (payload : JVal) : Except Unit JVal :=
  match payload with
  | .obj fields => .ok (.obj (scrubFields fields))
  | _ => .error ()

def COMMON_REQUIRED : List String :=
  ["id", "type", "title", "date_published", "last_checked_at", "source_name",
   "source_url", "payload"]

/-- `ISO_DATE_RE` : `^\d{4}-\d{2}-\d{2}$`. -/
def isoDateRe (s : String) : Bool :=
  match s.data with
  | [a, b, c, d, '-', e, f, '-', g, h] =>
    isAsciiDigit a ∧ isAsciiDigit b ∧ isAsciiDigit c ∧ isAsciiDigit d ∧
    isAsciiDigit e ∧ isAsciiDigit f ∧ isAsciiDigit g ∧ isAsciiDigit h
  | _ => false

/-- `validate_common` (returns the failure, or `none` for a pass). -/
def validate_common (doc : Doc) : Option Fail :=
  match COMMON_REQUIRED.find? (fun k =>
      match alGet doc k with
      | none => true
      | some (.str s) => pyStrip s = ""
      | some _ => false) with
  | some k => some ⟨"Validate", "필수 필드 누락: " ++ k, (jsonDumps (.obj doc)).take 200, []⟩
  | none =>
    match (["date_published", "last_checked_at"] : List String).find?
        (fun k => ¬ isoDateRe (pyStr (jGet doc k))) with
    | some k => some ⟨"Validate", "날짜 형식 오류: " ++ k, pyStr (jGet doc k), []⟩
    | none =>
      let dv := jGet doc "deadline"
      let deadlineBad :=
        match dv with
        | .null => false
        | .str s => s ≠ "" ∧ ¬ isoDateRe s
        | v => ¬ isoDateRe (pyStr v)
      if deadlineBad then some ⟨"Validate", "deadline 날짜 형식 오류", pyStr dv, []⟩
      else if ¬ httpsRe (pyStr (jGet doc "source_url")) then
        some ⟨"Validate", "source_url은 https여야 합니다.", pyStr (jGet doc "source_url"), []⟩
      else
        let tOk :=
          match jGet doc "type" with
          | .str t =>
            (["scholarship", "activity", "job", "grad", "event", "notice"] : List String).contains t
          | _ => false
        if ¬ tOk then some ⟨"Validate", "type 값이 올바르지 않습니다.", pyStr (jGet doc "type"), []⟩
        else none

/-- The tail of `normalize_record` after the since-filter check: subtitle,
tags, payload, scrub, id, document assembly, validation. -/
def normalizeRest (src : Source) (r : RawRecord) (now : String) (seq : Nat)
    (title slug link deadline date_pub : String) : Except Unit NormRes :=
  match resolveSubtitle r with
  | .error e => .error e
  | .ok subtitle =>
    let tags := resolveTags r
    let mapping := src.mapping.getD []
    let post_type := choose_type src
    match buildPayload post_type mapping r title link with
    | .error e => .error e
    | .ok payload0 =>
      match scrubStep payload0 with
      | .error e => .error e
      | .ok payload =>
        let slug_final := make_slug (if slug = "" then title else slug)
        let post_id := build_id date_pub slug_final seq
        let doc : Doc := [
          ("id", .str post_id),
          ("type", .str post_type),
          ("title", .str title),
          ("subtitle", .str subtitle),
          ("tags", mget mapping "tags" (.arr tags)),
          ("date_published", .str date_pub),
          ("deadline", .str deadline),
          ("last_checked_at", .str now),
          ("source_name", .str (pyOptOr src.sourceName src.id)),
          ("source_url", .str link),
          ("payload", payload)]
        match validate_common doc with
        | some f => .ok (.errRes f)
        | none => .ok (.okRes doc slug_final)

/-- `normalize_record` (lines 366–467).  Dynamic type errors that would raise
out of the function are `Except.error`. -/
def normalize_record (src : Source) (r : RawRecord) (now : String) (seq : Nat)
    (since : Option String) : Except Unit NormRes :=
  match resolveTitle r with
  | .error e => .error e
  | .ok title =>
    if title = "" then
      .ok (.errRes ⟨"Normalize", "제목이 비어 있어 건너뜁니다.", "missing title",
        [("source", src.id)]⟩)
    else
      let slug := make_slug title
      match resolveLink src r with
      | .error e => .error e
      | .ok link =>
        match resolveRawDeadline r with
        | .error e => .error e
        | .ok raw_deadline =>
          let deadline := (parse_date raw_deadline).getD ""
          match resolveDatePub r now with
          | .error e => .error e
          | .ok date_pub =>
            match since with
            | some s =>
              if pyLt date_pub s then
                .ok (.errRes ⟨"SinceFilter", "since 이전 게시물", date_pub ++ " < " ++ s,
                  [("source", src.id)]⟩)
              else normalizeRest src r now seq title slug link deadline date_pub
            | none => normalizeRest src r now seq title slug link deadline date_pub

-- ---------------------------------------------------------------------------
-- Dedupe & write, and the orchestrator loop of `main` (lines 577–634).
-- The output directory is a list of (filename, document) pairs in directory
-- order; the failure sink is a list of entries; fetch results and uncaught
-- per-source exceptions are inputs.
-- ---------------------------------------------------------------------------

/-- Generic first-occurrence association lookup. -/
def getFirst {α : Type} (l : List (String × α)) (k : String) : Option α :=
  match l with
  | [] => none
  | (k', v) :: t => if k' = k then some v else getFirst t k

/-- One line of the deadletter JSONL: the originating source id merged with
the failure payload. -/
structure DLEntry where
  source : String
  f : Fail
  deriving DecidableEq, Repr

/-- The stored output directory: filenames with their JSON documents. -/
abbrev Store := List (String × Doc)

/-- `re.match(r"^\d{4}-\d{2}-\d{2}-", name)` (anchored at the start only). -/
def dateDashStart (name : String) : Bool :=
  match name.data with
  | a :: b :: c :: d :: '-' :: e :: f :: '-' :: g :: h :: '-' :: _ =>
    isAsciiDigit a ∧ isAsciiDigit b ∧ isAsciiDigit c ∧ isAsciiDigit d ∧
    isAsciiDigit e ∧ isAsciiDigit f ∧ isAsciiDigit g ∧ isAsciiDigit h
  | _ => false

/-- `find_existing`: the first directory entry whose name ends in
`-<slug>.json` and starts with a calendar-date prefix. -/
def find_existing (store : Store) (slug : String) : Option String :=
  (store.find? fun nd => pyEnds nd.1 ("-" ++ slug ++ ".json") && dateDashStart nd.1).map (·.1)

/-- Replace the document stored at `name` (`os.replace` of an existing path;
the fresh-path case appends). -/
def storeSet (store : Store) (name : String) (doc : Doc) : Store :=
  match store with
  | [] => [(name, doc)]
  | (n, d) :: t => if n = name then (n, doc) :: t else (n, d) :: storeSet t name doc

/-- Python slice `l[:n]` for an `int` bound (negative bounds count from the
end). -/
def pySliceTo {α : Type} (n : Int) (l : List α) : List α :=
  if 0 ≤ n then l.take n.toNat else l.take (l.length - n.natAbs)

/-- The run parameters `main` consumes (the CLI collaborator is external). -/
structure Args where
  since : Option String
  max_per_source : Int
  limit : Int
  dry_run : Bool

/-- Mutable run state of `main`'s loop: id sequence, processed-item count,
partial-failure flag, failure sink, and the output directory. -/
structure RunSt where
  seq : Nat
  total : Nat
  anyFail : Bool
  dead : List DLEntry
  store : Store

/-- `max(0, int((src.rateLimit or {}).get("minDelayMs", 1000)))`. -/
def delayOf (src : Source) : Int :=
  max 0 ((getFirst (src.rateLimit.getD []) "minDelayMs").getD 1000)

/-- Result of `collect_from_source`: parsed records, the error flag (the
`int` second return), the grown failure sink, and the politeness delay that
was applied before fetching. -/
structure CollectRes where
  recs : List RawRecord
  srcErr : Nat
  dead : List DLEntry
  delayMs : Int

/-- What the external fetcher produced for a source. -/
inductive FetchOutcome where
  | err (msg : String)
  | ok (recs : List RawRecord)

/-- What happened when the orchestrator invoked `collect_from_source`: either
it raised (caught by the per-source `try`), or it ran on a fetch outcome. -/
inductive SourceStep where
  | exn (msg : String)
  | fetch (fo : FetchOutcome)

/-- `collect_from_source` (lines 510–537): polite delay, fetch, dispatch on
the source kind, trim to the per-source cap.  The `rss`/`html`/`api` parsers
run on the fetched bytes; their output is the `FetchOutcome.ok` payload here
(`parse_api` is modelled and verified separately), and an unknown kind is the
`UnsupportedSource` failure. -/
def collectModel (src : Source) (fo : FetchOutcome) (max_items : Int)
    (dead : List DLEntry) : CollectRes :=
  let d := delayOf src
  match fo with
  | .err msg =>
    ⟨[], 1, dead ++ [⟨src.id, ⟨"FetchError", "원문을 불러오지 못했습니다.", msg,
      [("url", src.url)]⟩⟩], d⟩
  | .ok recs =>
    if src.type = "rss" ∨ src.type = "html" ∨ src.type = "api" then
      ⟨pySliceTo max_items recs, 0, dead, d⟩
    else
      ⟨[], 1, dead ++ [⟨src.id, ⟨"UnsupportedSource", "지원하지 않는 소스 타입", src.type, []⟩⟩], d⟩

/-- The dedupe/upsert tail of the record loop (lines 607–630): merge-update
the first matching stored file, or write a brand-new one.  The `WriteError`
`try/except` cannot fire in the pure store model. -/
def upsertStep (st : RunSt) (doc : Doc) (slug : String) (now : String)
    (dry_run : Bool) : RunSt :=
  match find_existing st.store slug with
  | some path =>
    let cur := (getFirst st.store path).getD []
    let cur := alSet cur "last_checked_at" (.str now)
    let cur :=
      if jTruthy (jGet doc "deadline") then alSet cur "deadline" (jGet doc "deadline") else cur
    let store' := if dry_run then st.store else storeSet st.store path cur
    { st with store := store', total := st.total + 1 }
  | none =>
    let fname := pyStr (jGet doc "date_published") ++ "-" ++ slug ++ ".json"
    let store' := if dry_run then st.store else st.store ++ [(fname, doc)]
    { st with store := store', total := st.total + 1, seq := st.seq + 1 }

/-- One record through normalize → (sink or upsert) (lines 595–630). -/
def processRecord (args : Args) (src : Source) (now : String) (st : RunSt)
    (r : RawRecord) : Except Unit RunSt :=
  match normalize_record src r now st.seq args.since with
  | .error e => .error e
  | .ok (.errRes f) =>
    if f.kind ≠ "SinceFilter" then .ok { st with dead := st.dead ++ [⟨src.id, f⟩] }
    else .ok st
  | .ok (.okRes doc slug) => .ok (upsertStep st doc slug now args.dry_run)

/-- The record loop with the global-cap check before each record. -/
def runRecords (args : Args) (src : Source) (now : String) :
    List RawRecord → RunSt → Except Unit RunSt
  | [], st => .ok st
  | r :: rest, st =>
    if args.limit ≤ (st.total : Int) then .ok st
    else
      match processRecord args src now st r with
      | .error e => .error e
      | .ok st' => runRecords args src now rest st'

/-- The source loop with the global-cap check before each source, the
per-source `try/except`, and the partial-failure flag updates. -/
def runSources (args : Args) (now : String) :
    List (Source × SourceStep) → RunSt → Except Unit RunSt
  | [], st => .ok st
  | (src, step) :: rest, st =>
    if args.limit ≤ (st.total : Int) then .ok st
    else
      match step with
      | .exn msg =>
        let e : DLEntry := ⟨src.id, ⟨"SourceError", "소스 처리 중 오류", msg, []⟩⟩
        runSources args now rest { st with anyFail := true, dead := st.dead ++ [e] }
      | .fetch fo =>
        let c := collectModel src fo args.max_per_source st.dead
        let st' := { st with dead := c.dead, anyFail := st.anyFail || (c.srcErr ≠ 0) }
        match runRecords args src now c.recs st' with
        | .error e => .error e
        | .ok st'' => runSources args now rest st''

def initSt (store : Store) : RunSt := ⟨1, 0, false, [], store⟩

/-- The collection phase of `main`, starting from an existing output
directory. -/
def runMain (args : Args) (now : String) (inputs : List (Source × SourceStep))
    (store0 : Store) : Except Unit RunSt :=
  runSources args now inputs (initSt store0)

/-- Lines 632–634: the exit status of a completed run. -/
def exitCode (st : RunSt) : Int := if st.anyFail then 2 else 0

-- ---------------------------------------------------------------------------
-- C9: the spec's description of slug computation, written from its words as
-- an independent pipeline (token split + join instead of run substitution,
-- `filter` instead of character substitution, pairwise collapse).
-- ---------------------------------------------------------------------------

/-- Tokens between the maximal runs of `p`-characters (a leading or trailing
run contributes an empty token, as in `re.split`). -/
def splitRuns (p : Char → Bool) : List Char → List (List Char)
  | [] => [[]]
  | c :: t =>
    let r := splitRuns p t
    if p c then
      match t with
      | c' :: _ => if p c' then r else [] :: r
      | [] => [] :: r
    else
      match r with
      | h :: rs => (c :: h) :: rs
      | [] => [[c]]

/-- Join tokens with single hyphens. -/
def joinHyphen : List (List Char) → List Char
  | [] => []
  | [t] => t
  | t :: ts => t ++ '-' :: joinHyphen ts

/-- Collapse each pair of adjacent hyphens. -/
def collapseDashes : List Char → List Char
  | [] => []
  | [c] => [c]
  | c :: c' :: t =>
    if c = '-' ∧ c' = '-' then collapseDashes (c' :: t) else c :: collapseDashes (c' :: t)

/-- The slug pipeline exactly as the claim words it: lowercase; replace
whitespace/underscore runs with a hyphen; strip characters outside
`[a-z0-9-]`; collapse repeated hyphens; cap the length at 48; fall back to
`"post"` when empty. -/
def slugifySpecClaimed (title : String) : String :=
  let l := lowerL title.data
  let l := joinHyphen (splitRuns isWsUnderscore l)
  let l := l.filter slugChar
  let l := collapseDashes l
  let l := l.take 48
  if l.isEmpty then "post" else ⟨l⟩

/-- The amended pipeline: as claimed, plus stripping leading and trailing
hyphens after the collapse (the step the claim's list omits). -/
def slugifySpecAmended (title : String) : String :=
  let l := lowerL title.data
  let l := joinHyphen (splitRuns isWsUnderscore l)
  let l := l.filter slugChar
  let l := collapseDashes l
  let l := dropTrailing (· = '-') (l.dropWhile (· = '-'))
  let l := l.take 48
  if l.isEmpty then "post" else ⟨l⟩

theorem splitRuns_ne_nil (p : Char → Bool) (l : List Char) : splitRuns p l ≠ [] := by
  induction l with
  | nil => simp [splitRuns]
  | cons c t ih =>
    simp only [splitRuns]
    cases hpc : p c <;> simp only [Bool.false_eq_true, if_true, if_false]
    · match h : splitRuns p t with
      | [] => exact absurd h ih
      | h' :: rs => simp
    · match t with
      | [] => simp
      | c' :: t' => cases hpc' : p c' <;> simp [hpc', ih]

theorem splitRuns_run (p : Char → Bool) :
    ∀ (t : List Char) (c : Char), p c = true →
      splitRuns p (c :: t) = [] :: splitRuns p (t.dropWhile p)
  | [], c, hc => by simp [splitRuns, hc]
  | c' :: t', c, hc => by
    cases hpc' : p c' with
    | true =>
      have ih := splitRuns_run p t' c' hpc'
      simp only [splitRuns, hc, if_true, hpc', List.dropWhile_cons_of_pos hpc']
      simp only [splitRuns] at ih
      simpa [hpc'] using ih
    | false =>
      simp [splitRuns, hc, hpc', List.dropWhile_cons_of_neg]

theorem joinHyphen_nil_cons (xs : List (List Char)) (h : xs ≠ []) :
    joinHyphen ([] :: xs) = '-' :: joinHyphen xs := by
  match xs with
  | [] => exact absurd rfl h
  | y :: ys => rfl

theorem joinHyphen_cons_chr (c : Char) (h : List Char) (rs : List (List Char)) :
    joinHyphen ((c :: h) :: rs) = c :: joinHyphen (h :: rs) := by
  match rs with
  | [] => rfl
  | y :: ys => rfl

/-- `re.sub(r"[X]+", "-", s)` coincides with split-on-runs followed by a
hyphen join. -/
theorem subRuns_eq_joinHyphen_splitRuns (p : Char → Bool) (l : List Char) :
    subRunsAux p ['-'] false l = joinHyphen (splitRuns p l) ∧
    subRunsAux p ['-'] true l = joinHyphen (splitRuns p (l.dropWhile p)) := by
  induction l with
  | nil => exact ⟨rfl, rfl⟩
  | cons c t ih =>
    obtain ⟨ih1, ih2⟩ := ih
    cases hpc : p c with
    | true =>
      have hfalse : subRunsAux p ['-'] false (c :: t) =
          joinHyphen (splitRuns p (c :: t)) := by
        rw [splitRuns_run p t c hpc,
          joinHyphen_nil_cons _ (splitRuns_ne_nil p _)]
        simp [subRunsAux, hpc, ih2]
      refine ⟨hfalse, ?_⟩
      rw [List.dropWhile_cons_of_pos hpc]
      simpa [subRunsAux, hpc] using ih2
    | false =>
      have hsplit := splitRuns_ne_nil p t
      have hfalse : subRunsAux p ['-'] false (c :: t) =
          joinHyphen (splitRuns p (c :: t)) := by
        simp only [subRunsAux, hpc, Bool.false_eq_true, if_false]
        match hs : splitRuns p t with
        | [] => exact absurd hs hsplit
        | h :: rs =>
          simp only [splitRuns, hpc, Bool.false_eq_true, if_false, hs,
            joinHyphen_cons_chr]
          rw [ih1, hs]
      refine ⟨hfalse, ?_⟩
      rw [List.dropWhile_cons_of_neg (by simp [hpc])]
      simpa [subRunsAux, hpc] using hfalse

/-- `re.sub` on a bare character class with an empty replacement is
`filter`. -/
theorem subChar_eq_filter (p : Char → Bool) (l : List Char) :
    subChar (fun c => !p c) [] l = l.filter p := by
  induction l with
  | nil => rfl
  | cons c t ih =>
    cases hpc : p c <;> simp [subChar, hpc, ih]

theorem collapseDashes_dash (u : List Char) :
    collapseDashes ('-' :: u) = '-' :: collapseDashes (u.dropWhile (· = '-')) := by
  induction u with
  | nil => rfl
  | cons c'' u'' ih =>
    by_cases hc : c'' = '-'
    · subst hc
      rw [List.dropWhile_cons_of_pos (by simp)]
      simpa [collapseDashes] using ih
    · rw [List.dropWhile_cons_of_neg (by simp [hc])]
      simp [collapseDashes, hc]

theorem collapseDashes_nondash (c : Char) (t : List Char) (hc : c ≠ '-') :
    collapseDashes (c :: t) = c :: collapseDashes t := by
  match t with
  | [] => rfl
  | c' :: t' => simp [collapseDashes, hc]

/-- `re.sub(r"-+", "-", s)` coincides with the pairwise collapse. -/
theorem subRuns_eq_collapseDashes (l : List Char) :
    subRunsAux (fun c => c = '-') ['-'] false l = collapseDashes l ∧
    subRunsAux (fun c => c = '-') ['-'] true l = collapseDashes (l.dropWhile (· = '-')) := by
  induction l with
  | nil => exact ⟨rfl, rfl⟩
  | cons c t ih =>
    obtain ⟨ih1, ih2⟩ := ih
    by_cases hc : c = '-'
    · subst hc
      constructor
      · rw [collapseDashes_dash]
        simpa [subRunsAux] using ih2
      · rw [List.dropWhile_cons_of_pos (by simp)]
        simpa [subRunsAux] using ih2
    · constructor
      · rw [collapseDashes_nondash c t hc]
        simp [subRunsAux, hc, ih1]
      · rw [List.dropWhile_cons_of_neg (by simp [hc])]
        rw [collapseDashes_nondash c t hc]
        simp [subRunsAux, hc, ih1]

/-- `slugify` never returns the empty string. -/
theorem slugify_ne_empty (s : String) : slugify s ≠ "" := by
  unfold slugify
  set l := ((subRuns (fun c => c = '-') ['-']
    (subChar (fun c => !slugChar c) []
      (subRuns isWsUnderscore ['-'] (lowerL s.data)))).dropWhile (· = '-')).reverse.dropWhile
        (· = '-') |>.reverse with hl
  intro hcon
  by_cases h : (l.take 48).isEmpty
  · rw [if_pos h] at hcon
    exact absurd hcon (by decide)
  · rw [if_neg h] at hcon
    have h2 : l.take 48 = [] := congrArg String.data hcon
    simp [h2] at h

/-- C9 (counterexample): the claim's step list (without an end-hyphen strip)
disagrees with the code on the title `" a "`: the code strips the hyphens the
whitespace-to-hyphen step introduced at the ends and yields `"a"`, while the
claimed pipeline yields `"-a-"`. -/
theorem c9_slugify_cex :
    slugify " a " = "a" ∧ slugifySpecClaimed " a " = "-a-" ∧
      slugify " a " ≠ slugifySpecClaimed " a " := by
  refine ⟨by decide, by decide, by decide⟩

/-- C9 (amended): slug computation is the deterministic function of the title
implementing exactly: lowercase, whitespace/underscore runs to a hyphen,
strip characters outside `[a-z0-9-]`, collapse repeated hyphens, strip
leading/trailing hyphens, cap the length at 48, fallback `"post"` when empty;
and the record-level `make_slug` adds nothing on top of `slugify`, so the
same title always yields the same slug within and across runs. -/
theorem c9_slugify_spec :
    (∀ s : String, slugify s = slugifySpecAmended s) ∧
      ∀ s : String, make_slug s = slugify s := by
  have hmain : ∀ s : String, slugify s = slugifySpecAmended s := by
    intro s
    simp only [slugify, slugifySpecAmended, subRuns, dropTrailing]
    rw [(subRuns_eq_joinHyphen_splitRuns isWsUnderscore (lowerL s.data)).1,
      subChar_eq_filter slugChar, (subRuns_eq_collapseDashes _).1]
  refine ⟨hmain, fun s => ?_⟩
  unfold make_slug
  rw [if_neg (slugify_ne_empty s)]

-- ---------------------------------------------------------------------------
-- C6: the structured-api parser against the spec's description.
-- ---------------------------------------------------------------------------

def jAsObj : JVal → Option (List (String × JVal))
  | .obj f => some f
  | _ => none

/-- `parse_api` as the claim words it: a top-level array contributes one
record per mapping element; for a top-level mapping, the known key names are
tried in order and the elements of *the* list found under the first such key
are returned; anything else is empty. -/
def parseApiSpecClaimed (payload : Option JVal) : List RawRecord :=
  match payload with
  | some (.arr l) => l.filterMap jAsObj
  | some (.obj fields) =>
    match (["items", "data", "results"] : List String).findSome? (fun k =>
        match alGet fields k with
        | some (.arr seq) => some seq
        | _ => none) with
    | some seq => seq.filterMap jAsObj
    | none => []
  | _ => []

/-- The amended description: for a top-level mapping the parser concatenates,
over all of the known keys in the order `items`, `data`, `results`, the
mapping elements of the list stored under each key that holds one. -/
def parseApiSpecAmended (payload : Option JVal) : List RawRecord :=
  match payload with
  | some (.arr l) => l.filterMap jAsObj
  | some (.obj fields) =>
    (["items", "data", "results"] : List String).flatMap (fun k =>
      match alGet fields k with
      | some (.arr seq) => seq.filterMap jAsObj
      | _ => [])
  | _ => []

theorem foldA_eq_filterMap (l : List JVal) (acc : List RawRecord) :
    l.foldl (fun a r => match r with | .obj f => a ++ [f] | _ => a) acc =
      acc ++ l.filterMap jAsObj := by
  induction l generalizing acc with
  | nil => simp
  | cons x t ih =>
    cases x <;> simp [List.filterMap_cons, jAsObj, ih]

theorem foldKeys_eq_flatMap (fields : List (String × JVal)) (keys : List String)
    (acc : List RawRecord) :
    keys.foldl (fun a key =>
        match alGet fields key with
        | some (.arr seq) => seq.foldl (fun a r => match r with | .obj f => a ++ [f] | _ => a) a
        | _ => a) acc =
      acc ++ keys.flatMap (fun k =>
        match alGet fields k with
        | some (.arr seq) => seq.filterMap jAsObj
        | _ => []) := by
  induction keys generalizing acc with
  | nil => simp
  | cons k t ih =>
    rw [List.foldl_cons, List.flatMap_cons, ih]
    match hk : alGet fields k with
    | some (.arr seq) => simp [hk, foldA_eq_filterMap]
    | some .null | some (.bool _) | some (.num _) | some (.str _) | some (.obj _) =>
      simp [hk]
    | none => simp [hk]

theorem filterMap_jAsObj_all_obj (l : List JVal)
    (h : ∀ x ∈ l, ∃ f, x = JVal.obj f) : (l.filterMap jAsObj).length = l.length := by
  induction l with
  | nil => rfl
  | cons x t ih =>
    obtain ⟨f, hf⟩ := h x (by simp)
    subst hf
    simp [List.filterMap_cons, jAsObj, ih fun y hy => h y (by simp [hy])]

/-- C6 (counterexample): on a mapping holding lists under both `items` and
`data`, the code returns the elements of *both* lists (two records), not the
elements of the first key that matches (one record) as the claim's
"trying the known key names in order" reads. -/
theorem c6_parse_api_cex :
    (parse_api (some (.obj [("items", .arr [.obj [("a", .num 1)]]),
        ("data", .arr [.obj [("b", .num 2)]])]))).length = 2 ∧
    (parseApiSpecClaimed (some (.obj [("items", .arr [.obj [("a", .num 1)]]),
        ("data", .arr [.obj [("b", .num 2)]])]))).length = 1 ∧
    parse_api (some (.obj [("items", .arr [.obj [("a", .num 1)]]),
        ("data", .arr [.obj [("b", .num 2)]])])) ≠
      parseApiSpecClaimed (some (.obj [("items", .arr [.obj [("a", .num 1)]]),
        ("data", .arr [.obj [("b", .num 2)]])])) :=
  ⟨rfl, rfl, fun h => absurd (congrArg List.length h) (by decide)⟩

/-- C6 (amended): the structured-api parser returns one record per mapping
element of a top-level array; for a top-level mapping it concatenates the
mapping elements of the lists under all of `items`, `data`, `results` in that
order; and every other (malformed or unrecognized) input yields the empty
sequence without any failure. -/
theorem c6_parse_api_spec :
    (∀ j : Option JVal, parse_api j = parseApiSpecAmended j) ∧
      ∀ l : List JVal, (∀ x ∈ l, ∃ f, x = JVal.obj f) →
        (parse_api (some (.arr l))).length = l.length := by
  have hmain : ∀ j : Option JVal, parse_api j = parseApiSpecAmended j := by
    intro j
    match j with
    | none => rfl
    | some .null | some (.bool _) | some (.num _) | some (.str _) => rfl
    | some (.arr l) =>
      simp only [parse_api, parseApiSpecAmended]
      simpa using foldA_eq_filterMap l []
    | some (.obj fields) =>
      simp only [parse_api, parseApiSpecAmended]
      simpa using foldKeys_eq_flatMap fields ["items", "data", "results"] []
  refine ⟨hmain, fun l h => ?_⟩
  rw [hmain (some (.arr l))]
  exact filterMap_jAsObj_all_obj l h

/-- C6 (witness for the second conjunct's hypothesis): a two-element array of
mappings yields exactly two records. -/
theorem c6_parse_api_spec_witness :
    (parse_api (some (.arr [.obj [("a", .num 1)], .obj []]))).length = 2 :=
  c6_parse_api_spec.2 [.obj [("a", .num 1)], .obj []]
    (by
      intro x hx
      rcases List.mem_cons.mp hx with h | h
      · exact ⟨_, h⟩
      · exact ⟨_, List.mem_singleton.mp h⟩)

-- ---------------------------------------------------------------------------
-- C10: the polite delay.
-- ---------------------------------------------------------------------------

/-- C10: `collect_from_source` applies the polite delay before every fetch
(whatever the fetch outcome), and the waited duration is
`max(0, configured-or-1000)` milliseconds: an absent `rateLimit` (or an
absent `minDelayMs` key) defaults to 1000, and a negative configured value is
clamped to 0. -/
theorem c10_polite_delay :
    (∀ (src : Source) (fo : FetchOutcome) (mx : Int) (dead : List DLEntry),
      (collectModel src fo mx dead).delayMs = delayOf src) ∧
    (∀ src : Source, src.rateLimit = none → delayOf src = 1000) ∧
    (∀ (src : Source) (rl : List (String × Int)), src.rateLimit = some rl →
      getFirst rl "minDelayMs" = none → delayOf src = 1000) ∧
    (∀ (src : Source) (rl : List (String × Int)) (v : Int), src.rateLimit = some rl →
      getFirst rl "minDelayMs" = some v → delayOf src = max 0 v) ∧
    (∀ (src : Source) (rl : List (String × Int)) (v : Int), src.rateLimit = some rl →
      getFirst rl "minDelayMs" = some v → v < 0 → delayOf src = 0) := by
  refine ⟨?_, ?_, ?_, ?_, ?_⟩
  · intro src fo mx dead
    cases fo with
    | err msg => rfl
    | ok recs =>
      simp only [collectModel]
      by_cases h : src.type = "rss" ∨ src.type = "html" ∨ src.type = "api" <;> simp [h]
  · intro src h
    simp [delayOf, h, getFirst]
  · intro src rl h1 h2
    simp [delayOf, h1, h2]
  · intro src rl v h1 h2
    simp [delayOf, h1, h2]
  · intro src rl v h1 h2 hv
    simp [delayOf, h1, h2]
    omega

/-- A source with no rate limit configured. -/
def srcNoRL : Source := { id := "a", type := "rss", url := "https://x.y" }

/-- A source configured with a negative minimum delay. -/
def srcNegRL : Source :=
  { srcNoRL with rateLimit := some [("minDelayMs", -50)] }

/-- A source configured with a 250 ms minimum delay. -/
def srcPosRL : Source :=
  { srcNoRL with rateLimit := some [("minDelayMs", 250)] }

/-- C10 (witness): a source with no rate limit waits 1000 ms; a configured
−50 ms is clamped to 0; a configured 250 ms is used as-is. -/
theorem c10_polite_delay_witness :
    delayOf srcNoRL = 1000 ∧ delayOf srcNegRL = 0 ∧ delayOf srcPosRL = 250 ∧
      (collectModel srcNoRL (.err "boom") 100 []).delayMs = 1000 := by
  refine ⟨c10_polite_delay.2.1 _ rfl,
    c10_polite_delay.2.2.2.2 srcNegRL [("minDelayMs", -50)] (-50) rfl rfl (by decide),
    ?_, ?_⟩
  · rw [c10_polite_delay.2.2.2.1 srcPosRL [("minDelayMs", 250)] 250 rfl rfl]
    decide
  · rw [c10_polite_delay.1 _ _ _ _, c10_polite_delay.2.1 _ rfl]

-- ---------------------------------------------------------------------------
-- C7: URL normalization.  `WfHttpRest` captures "otherwise well-formed" for
-- an `http://`-URL: no tab/CR/LF (which `urlsplit` silently deletes), the
-- authority part does not degenerate into an empty-netloc `//`-path, no
-- square brackets in the netloc (bracketed IPv6 hosts get extra validation),
-- and no empty query before a fragment or empty trailing query/fragment
-- (`urlunsplit` drops such empty components, as the RFC allows).
-- ---------------------------------------------------------------------------

def noUnsafe (l : List Char) : Bool :=
  l.all fun c => ¬(c = '\t' ∨ c = '\r' ∨ c = '\n')

/-- Non-degenerate query/fragment components of the part after the netloc. -/
def qfWellFormed (tail : List Char) : Bool :=
  match splitFirst '#' tail with
  | some (t1, fr) =>
    !fr.isEmpty &&
      (match splitFirst '?' t1 with
       | some (_, q) => !q.isEmpty
       | none => true)
  | none =>
    match splitFirst '?' tail with
    | some (_, q) => !q.isEmpty
    | none => true

/-- "Otherwise well-formed" for the part of a URL after `http://`. -/
def wfHttpRest (rest : List Char) : Bool :=
  let n := rest.takeWhile fun c => ¬ urlDelim c
  noUnsafe rest && !startsL ['/', '/'] rest &&
    !n.contains '[' && !n.contains ']' &&
    qfWellFormed (rest.dropWhile fun c => ¬ urlDelim c)

theorem startsL_append (p l : List Char) : startsL p (p ++ l) = true := by
  induction p with
  | nil => rfl
  | cons c t ih => simp [startsL, ih]

theorem splitFirst_some (c : Char) :
    ∀ (l a b : List Char), splitFirst c l = some (a, b) → l = a ++ c :: b ∧ c ∉ a := by
  intro l
  induction l with
  | nil => intro a b h; exact absurd h (by simp [splitFirst])
  | cons x t ih =>
    intro a b h
    by_cases hx : x = c
    · subst hx
      simp [splitFirst] at h
      obtain ⟨ha, hb⟩ := h
      subst ha; subst hb
      exact ⟨rfl, by simp⟩
    · simp only [splitFirst, if_neg hx, Option.map_eq_some'] at h
      obtain ⟨⟨a', b'⟩, hs, hf⟩ := h
      cases hf
      obtain ⟨h1, h2⟩ := ih a' b' hs
      refine ⟨by rw [h1]; rfl, ?_⟩
      simp only [List.mem_cons, not_or]
      exact ⟨fun hc => hx hc.symm, h2⟩

theorem splitFirst_none (c : Char) :
    ∀ l : List Char, splitFirst c l = none → c ∉ l := by
  intro l
  induction l with
  | nil => intro _; simp
  | cons x t ih =>
    intro h
    by_cases hx : x = c
    · subst hx; simp [splitFirst] at h
    · simp only [splitFirst, if_neg hx] at h
      rw [Option.map_eq_none'] at h
      simp only [List.mem_cons, not_or]
      exact ⟨fun hc => hx hc.symm, ih h⟩

theorem startsL_mono (pre : List Char) :
    ∀ (p s : List Char), startsL pre p = true → startsL pre (p ++ s) = true := by
  induction pre with
  | nil => intro p s _; rfl
  | cons a pre' ih =>
    intro p s h
    match p with
    | [] => exact absurd h (by simp [startsL])
    | b :: p' =>
      simp only [startsL, Bool.and_eq_true] at h
      simpa [startsL, h.1] using ih p' s h.2

theorem dropWhile_head_not (p : Char → Bool) (l : List Char) :
    l.dropWhile p = [] ∨ ∃ x t, l.dropWhile p = x :: t ∧ p x = false := by
  induction l with
  | nil => exact Or.inl rfl
  | cons c t ih =>
    by_cases hc : p c
    · simpa [List.dropWhile_cons_of_pos hc] using ih
    · exact Or.inr ⟨c, t, List.dropWhile_cons_of_neg (by simpa using hc), by simpa using hc⟩

/-- `urlunsplit` over the `https` scheme, under the non-degeneracy facts the
split produces. -/
theorem urlunsplit_https (n path q f : List Char)
    (hpath : path = [] ∨ startsL ['/'] path = true)
    (hcond : n ≠ [] ∨ startsL ['/', '/'] path = false) :
    urlunsplitL "https".data n path q f =
      "https://".data ++ n ++ path ++ (if q = [] then [] else '?' :: q) ++
        (if f = [] then [] else '#' :: f) := by
  simp only [urlunsplitL]
  have hc1 : (n ≠ [] ∨ ("https".data ≠ [] ∧ uses_netloc.contains (⟨"https".data⟩ : String) ∧
      ¬ startsL ['/', '/'] path = true)) := by
    rcases hcond with h | h
    · exact Or.inl h
    · exact Or.inr ⟨by decide, by decide, by simp [h]⟩
  rw [if_pos hc1]
  have hp2 : ¬ (path ≠ [] ∧ ¬ startsL ['/'] path = true) := by
    rcases hpath with h | h
    · simp [h]
    · simp [h]
  rw [if_neg hp2]
  rw [if_pos (by decide : ("https".data : List Char) ≠ [])]
  by_cases hq : q = [] <;> by_cases hf : f = [] <;>
    simp [hq, hf, List.append_assoc]

theorem splitFirst_http_colon (X : List Char) :
    splitFirst ':' (['h', 't', 't', 'p', ':', '/', '/'] ++ X) =
      some (['h', 't', 't', 'p'], '/' :: '/' :: X) := rfl

theorem drop_takeWhile_len (p : Char → Bool) (l : List Char) :
    l.drop (l.takeWhile p).length = l.dropWhile p := by
  induction l with
  | nil => rfl
  | cons c t ih =>
    by_cases hc : p c
    · simpa [List.takeWhile_cons_of_pos hc, List.dropWhile_cons_of_pos hc] using ih
    · simp [List.takeWhile_cons_of_neg (by simpa using hc),
        List.dropWhile_cons_of_neg (by simpa using hc)]

theorem bnot_contains_notMem (l : List Char) (a : Char) (h : (!l.contains a) = true) :
    a ∉ l := fun hm => by
  have h' : (!l.elem a) = true := h
  simp at h'
  exact h' hm

/-- The head of a nonempty prefix of the post-netloc part is a delimiter; if
it is neither `?` nor `#`, the path is empty or starts with `/`. -/
theorem path_head (rest p s : List Char)
    (hps : (rest.dropWhile fun c => ¬ urlDelim c) = p ++ s)
    (hq : '?' ∉ p) (hh : '#' ∉ p) : p = [] ∨ startsL ['/'] p = true := by
  match p with
  | [] => exact Or.inl rfl
  | x :: p' =>
    refine Or.inr ?_
    rcases dropWhile_head_not (fun c => ¬ urlDelim c) rest with hd | ⟨y, t', hd, hy⟩
    · rw [hps] at hd; exact absurd hd (by simp)
    · rw [hps] at hd
      have hx : x = y := by
        have := congrArg List.head? hd
        simpa using this
      subst hx
      have hdel : urlDelim x = true := by simpa using hy
      have : x = '/' ∨ x = '?' ∨ x = '#' := by simpa [urlDelim] using hdel
      rcases this with h | h | h
      · subst h; simp [startsL]
      · exact absurd (h ▸ List.mem_cons_self x p') hq
      · exact absurd (h ▸ List.mem_cons_self x p') hh

/-- Either the netloc is nonempty, or the path cannot start with `//` (else
the whole rest would, which well-formedness excludes). -/
theorem path_nostart (rest p s : List Char)
    (hns : startsL ['/', '/'] rest = false)
    (hps : (rest.dropWhile fun c => ¬ urlDelim c) = p ++ s) :
    (rest.takeWhile fun c => ¬ urlDelim c) ≠ [] ∨ startsL ['/', '/'] p = false := by
  by_cases hN : (rest.takeWhile fun c => ¬ urlDelim c) = []
  · refine Or.inr ?_
    cases hb : startsL ['/', '/'] p with
    | false => rfl
    | true =>
      have hmono := startsL_mono ['/', '/'] p s hb
      rw [← hps] at hmono
      have hrest : (rest.dropWhile fun c => ¬ urlDelim c) = rest := by
        have := List.takeWhile_append_dropWhile (p := fun c => ¬ urlDelim c) (l := rest)
        rw [hN] at this
        simpa using this
      rw [hrest] at hmono
      rw [hmono] at hns
      exact absurd hns (by simp)
  · exact Or.inl hN

/-- The facts the rebuild needs about the fragment/query splits of a
well-formed tail: path shape, `//`-freedom, and exact reassembly. -/
theorem tail_facts (rest t1 fr p q : List Char)
    (hns : startsL ['/', '/'] rest = false)
    (hqf : qfWellFormed (rest.dropWhile fun c => ¬ urlDelim c) = true)
    (hsf : (match splitFirst '#' (rest.dropWhile fun c => ¬ urlDelim c) with
            | some ab => ab
            | none => (rest.dropWhile fun c => ¬ urlDelim c, [])) = (t1, fr))
    (hsq : (match splitFirst '?' t1 with
            | some ab => ab
            | none => (t1, [])) = (p, q)) :
    (p = [] ∨ startsL ['/'] p = true) ∧
    ((rest.takeWhile fun c => ¬ urlDelim c) ≠ [] ∨ startsL ['/', '/'] p = false) ∧
    (rest.takeWhile fun c => ¬ urlDelim c) ++
      (p ++ ((if q = [] then [] else '?' :: q) ++ (if fr = [] then [] else '#' :: fr))) =
      rest := by
  have hND := List.takeWhile_append_dropWhile (p := fun c => ¬ urlDelim c) (l := rest)
  rcases hm1 : splitFirst '#' (rest.dropWhile fun c => ¬ urlDelim c) with _ | ⟨t1', fr'⟩
  · rw [hm1] at hsf
    simp only [Prod.mk.injEq] at hsf
    obtain ⟨he1, he2⟩ := hsf
    subst he1; subst he2
    have hh : '#' ∉ (rest.dropWhile fun c => ¬ urlDelim c) := splitFirst_none '#' _ hm1
    rcases hm2 : splitFirst '?' (rest.dropWhile fun c => ¬ urlDelim c) with _ | ⟨p', q'⟩
    · rw [hm2] at hsq
      simp only [Prod.mk.injEq] at hsq
      obtain ⟨hg1, hg2⟩ := hsq
      subst hg1; subst hg2
      have hq : '?' ∉ (rest.dropWhile fun c => ¬ urlDelim c) := splitFirst_none '?' _ hm2
      refine ⟨path_head rest _ [] (by simp) hq hh, path_nostart rest _ [] hns (by simp), ?_⟩
      simpa using hND
    · rw [hm2] at hsq
      simp only [Prod.mk.injEq] at hsq
      obtain ⟨hg1, hg2⟩ := hsq
      subst hg1; subst hg2
      obtain ⟨ht1, hq⟩ := splitFirst_some '?' _ _ _ hm2
      have hqne : q' ≠ [] := by
        simp only [qfWellFormed, hm1, hm2] at hqf
        simpa using hqf
      refine ⟨path_head rest p' ('?' :: q') (by rw [ht1]) hq
          (fun hm => hh (ht1 ▸ List.mem_append_left _ hm)),
        path_nostart rest p' ('?' :: q') hns (by rw [ht1]), ?_⟩
      rw [if_neg hqne, if_pos rfl]
      rw [show ('?' :: q' ++ ([] : List Char)) = '?' :: q' from by simp, ← ht1]
      exact hND
  · rw [hm1] at hsf
    simp only [Prod.mk.injEq] at hsf
    obtain ⟨he1, he2⟩ := hsf
    subst he1; subst he2
    obtain ⟨hD, hhD⟩ := splitFirst_some '#' _ _ _ hm1
    have hfrne : fr' ≠ [] := by
      simp only [qfWellFormed, hm1] at hqf
      rcases Bool.and_eq_true .. ▸ hqf with ⟨h1, _⟩
      simpa using h1
    rcases hm2 : splitFirst '?' t1' with _ | ⟨p', q'⟩
    · rw [hm2] at hsq
      simp only [Prod.mk.injEq] at hsq
      obtain ⟨hg1, hg2⟩ := hsq
      subst hg1; subst hg2
      have hq : '?' ∉ t1' := splitFirst_none '?' _ hm2
      refine ⟨path_head rest t1' ('#' :: fr') (by rw [hD]) hq hhD,
        path_nostart rest t1' ('#' :: fr') hns (by rw [hD]), ?_⟩
      rw [if_pos rfl, if_neg hfrne]
      rw [List.nil_append, ← hD]
      exact hND
    · rw [hm2] at hsq
      simp only [Prod.mk.injEq] at hsq
      obtain ⟨hg1, hg2⟩ := hsq
      subst hg1; subst hg2
      obtain ⟨ht1, hqm⟩ := splitFirst_some '?' _ _ _ hm2
      have hqne : q' ≠ [] := by
        simp only [qfWellFormed, hm1, hm2] at hqf
        rcases Bool.and_eq_true .. ▸ hqf with ⟨_, h2⟩
        simpa using h2
      have hDfull : (rest.dropWhile fun c => ¬ urlDelim c) = p' ++ ('?' :: q' ++ '#' :: fr') := by
        rw [hD, ht1]; simp
      have hhp : '#' ∉ p' := fun hm => hhD (ht1 ▸ List.mem_append_left _ hm)
      refine ⟨path_head rest p' ('?' :: q' ++ '#' :: fr') (by rw [hDfull]) hqm hhp,
        path_nostart rest p' ('?' :: q' ++ '#' :: fr') hns (by rw [hDfull]), ?_⟩
      rw [if_neg hqne, if_neg hfrne]
      rw [← hDfull]
      exact hND

/-- The fragment split of the post-netloc part of `//rest`. -/
def ufOf (rest : List Char) : List Char × List Char :=
  match splitFirst '#' (rest.dropWhile fun c => ¬ urlDelim c) with
  | some ab => ab
  | none => (rest.dropWhile fun c => ¬ urlDelim c, [])

/-- The query split of the pre-fragment part. -/
def uqOf (rest : List Char) : List Char × List Char :=
  match splitFirst '?' (ufOf rest).1 with
  | some ab => ab
  | none => ((ufOf rest).1, [])

/-- `urlsplit` of a well-behaved `http://` URL: scheme `http`, the netloc up
to the first delimiter, then the fragment and query splits (given here as the
values `(t1, fr)` and `(p, q)` those splits produce). -/
theorem urlsplit_http (rest t1 fr p q : List Char) (hun : noUnsafe rest = true)
    (hbl : '[' ∉ rest.takeWhile fun c => ¬ urlDelim c)
    (hbr : ']' ∉ rest.takeWhile fun c => ¬ urlDelim c)
    (hsf : (match splitFirst '#' (rest.dropWhile fun c => ¬ urlDelim c) with
            | some ab => ab
            | none => (rest.dropWhile fun c => ¬ urlDelim c, [])) = (t1, fr))
    (hsq : (match splitFirst '?' t1 with
            | some ab => ab
            | none => (t1, [])) = (p, q)) :
    urlsplitL ("http://".data ++ rest) =
      .ok ("http".data, rest.takeWhile (fun c => ¬ urlDelim c), p, q, fr) := by
  have hru : removeUnsafe ("http://".data ++ rest) = "http://".data ++ rest := by
    unfold removeUnsafe
    rw [List.filter_append]
    congr 1
    exact List.filter_eq_self.mpr (List.all_eq_true.mp hun)
  simp only [urlsplitL, hru]
  rw [splitFirst_http_colon]
  simp only []
  rw [if_pos (by decide :
    (!List.isEmpty ['h', 't', 't', 'p'] &&
      (Option.map isAsciiAlpha (List.head? ['h', 't', 't', 'p'])).getD false &&
      List.all ['h', 't', 't', 'p'] schemeChar) = true)]
  simp only []
  rw [if_pos (show startsL ['/', '/'] ('/' :: '/' :: rest) = true from rfl)]
  rw [(show List.drop 2 ('/' :: '/' :: rest) = rest from rfl)]
  rw [if_neg (by simp at hbl hbr ⊢; exact ⟨hbl, hbr⟩)]
  simp only []
  rw [drop_takeWhile_len]
  rcases hm1 : splitFirst '#' (rest.dropWhile fun c => ¬ urlDelim c) with _ | ⟨t1', fr'⟩
  · rw [hm1] at hsf
    simp only [Prod.mk.injEq] at hsf
    obtain ⟨he1, he2⟩ := hsf
    subst he1
    subst he2
    simp only []
    rcases hm2 : splitFirst '?' (rest.dropWhile fun c => ¬ urlDelim c) with _ | ⟨p', q'⟩
    · rw [hm2] at hsq
      simp only [Prod.mk.injEq] at hsq
      obtain ⟨hg1, hg2⟩ := hsq
      subst hg1; subst hg2
      rfl
    · rw [hm2] at hsq
      simp only [Prod.mk.injEq] at hsq
      obtain ⟨hg1, hg2⟩ := hsq
      subst hg1; subst hg2
      rfl
  · rw [hm1] at hsf
    simp only [Prod.mk.injEq] at hsf
    obtain ⟨he1, he2⟩ := hsf
    subst he1
    subst he2
    simp only []
    rcases hm2 : splitFirst '?' t1' with _ | ⟨p', q'⟩
    · rw [hm2] at hsq
      simp only [Prod.mk.injEq] at hsq
      obtain ⟨hg1, hg2⟩ := hsq
      subst hg1; subst hg2
      rfl
    · rw [hm2] at hsq
      simp only [Prod.mk.injEq] at hsq
      obtain ⟨hg1, hg2⟩ := hsq
      subst hg1; subst hg2
      rfl

/-- The core of C7's positive half: an `http://` URL whose remainder is
well-formed is rewritten to `https://` with the remainder intact. -/
theorem to_https_http_wf (rest : List Char)
    (hstrip : stripL ("http://".data ++ rest) = "http://".data ++ rest)
    (hwf : wfHttpRest rest = true) :
    to_https ⟨"http://".data ++ rest⟩ = .ok (some ⟨"https://".data ++ rest⟩) := by
  simp only [wfHttpRest, Bool.and_eq_true] at hwf
  obtain ⟨⟨⟨⟨hun, hns'⟩, hbl'⟩, hbr'⟩, hqf⟩ := hwf
  have hns : startsL ['/', '/'] rest = false := by simpa using hns'
  have hbl := bnot_contains_notMem _ _ hbl'
  have hbr := bnot_contains_notMem _ _ hbr'
  have hsplit := urlsplit_http rest (ufOf rest).1 (ufOf rest).2 (uqOf rest).1 (uqOf rest).2
    hun hbl hbr rfl rfl
  obtain ⟨hpath, hcond, hasm⟩ := tail_facts rest (ufOf rest).1 (ufOf rest).2
    (uqOf rest).1 (uqOf rest).2 hns hqf rfl rfl
  have hne : (⟨"http://".data ++ rest⟩ : String) ≠ "" := by
    intro hcon
    have := congrArg String.data hcon
    simp at this
  have hstarts : startsL "http".data (lowerL ("http://".data ++ rest)) = true := by
    show startsL "http".data (List.map lowerChar ("http://".data ++ rest)) = true
    rw [List.map_append]
    exact startsL_mono _ _ _ rfl
  unfold to_https
  rw [if_neg hne]
  simp only []
  rw [hstrip]
  rw [if_neg (not_not_intro hstarts)]
  rw [hsplit]
  simp only []
  rw [if_pos (Or.inl trivial)]
  rw [urlunsplit_https _ _ _ _ hpath hcond]
  have hre : httpsRe ⟨"https://".data ++ (rest.takeWhile fun c => ¬ urlDelim c) ++
      (uqOf rest).1 ++ (if (uqOf rest).2 = [] then [] else '?' :: (uqOf rest).2) ++
      (if (ufOf rest).2 = [] then [] else '#' :: (ufOf rest).2)⟩ = true := by
    show startsL "https://".data (lowerL _) = true
    simp only [List.append_assoc]
    show startsL "https://".data (List.map lowerChar ("https://".data ++ _)) = true
    rw [List.map_append]
    exact startsL_mono _ _ _ rfl
  rw [if_pos hre]
  refine congrArg Except.ok (congrArg some (congrArg String.mk ?_))
  simp only [List.append_assoc]
  exact congrArg (fun l => "https://".data ++ l) hasm


/-- C7: URL normalization.  (1) Every URL of the form `http://rest` that is
otherwise well-formed (no strippable whitespace, no tab/CR/LF, no bracketed
or degenerate authority, no empty query/fragment components) is rewritten to
`https://rest`, the same URL on the secure scheme.  (2) Every string that
does not start (case-insensitively, after stripping) with the HTTP-like
prefix `http` normalizes to none. -/
theorem c7_to_https :
    (∀ rest : String,
      pyStrip ("http://" ++ rest) = "http://" ++ rest →
      wfHttpRest rest.data = true →
      to_https ("http://" ++ rest) = .ok (some ("https://" ++ rest))) ∧
    (∀ s : String, pyStarts (pyLower (pyStrip s)) "http" = false →
      to_https s = .ok none) := by
  constructor
  · intro rest h1 h2
    exact to_https_http_wf rest.data (congrArg String.data h1) h2
  · intro s h
    by_cases hs : s = ""
    · subst hs; rfl
    · unfold to_https
      rw [if_neg hs]
      rw [if_pos (by
        intro hcon
        have h' : startsL "http".data (lowerL (stripL s.data)) = false := h
        rw [h'] at hcon
        exact absurd hcon (by simp))]

/-- C7 (witness): `http://example.com/path?q#frag` is rewritten to the same
URL on `https`, and `ftp://x` normalizes to none. -/
theorem c7_to_https_witness :
    to_https ("http://" ++ "example.com/path?q#frag") =
      .ok (some ("https://" ++ "example.com/path?q#frag")) ∧
    to_https "ftp://x" = .ok none := by
  constructor
  · exact c7_to_https.1 "example.com/path?q#frag" (by decide) (by decide)
  · exact c7_to_https.2 "ftp://x" (by decide)


-- ---------------------------------------------------------------------------
-- C2 / C4: the scrub loop and the payload of accepted records.
-- ---------------------------------------------------------------------------

theorem alGet_alSet (l : List (String × JVal)) (k k' : String) (v : JVal) :
    alGet (alSet l k v) k' = if k = k' then some v else alGet l k' := by
  induction l with
  | nil => by_cases h : k = k' <;> simp [alSet, alGet, h]
  | cons e t ih =>
    obtain ⟨ke, ve⟩ := e
    by_cases h1 : ke = k
    · subst h1
      simp only [alSet, if_pos rfl]
      by_cases h2 : ke = k'
      · subst h2; simp [alGet]
      · simp [alGet, h2]
    · simp only [alSet, if_neg h1]
      by_cases h2 : ke = k'
      · subst h2
        rw [if_neg (show ¬ k = ke from fun hc => h1 hc.symm)]
        simp [alGet]
      · simp [alGet, h2, ih]

theorem alSet_ne_nil (l : List (String × JVal)) (k : String) (v : JVal) :
    alSet l k v ≠ [] := by
  cases l with
  | nil => simp [alSet]
  | cons e t =>
    obtain ⟨ke, ve⟩ := e
    by_cases h : ke = k <;> simp [alSet, h]

/-- One step of the scrub loop. -/
def scrubStep1 (fs : List (String × JVal)) (key : String) : List (String × JVal) :=
  match alGet fs key with
  | some (.arr xs) => alSet fs key (.arr (xs.map scrubElem))
  | _ => fs

theorem scrubFields_eq_foldl (fields : List (String × JVal)) :
    scrubFields fields = scrubKeys.foldl scrubStep1 fields := rfl

theorem scrubStep1_ne_nil (fs : List (String × JVal)) (key : String) (h : fs ≠ []) :
    scrubStep1 fs key ≠ [] := by
  unfold scrubStep1
  match halg : alGet fs key with
  | some (.arr xs) => exact alSet_ne_nil fs key _
  | some .null | some (.bool _) | some (.num _) | some (.str _) | some (.obj _) => exact h
  | none => exact h

theorem scrubStep1_other (fs : List (String × JVal)) (key k : String) (h : key ≠ k) :
    alGet (scrubStep1 fs key) k = alGet fs k := by
  unfold scrubStep1
  match halg : alGet fs key with
  | some (.arr xs) => rw [alGet_alSet, if_neg h]
  | some .null | some (.bool _) | some (.num _) | some (.str _) | some (.obj _) => rfl
  | none => rfl

theorem foldl_scrubStep1_ne_nil (keys : List String) :
    ∀ fs : List (String × JVal), fs ≠ [] → keys.foldl scrubStep1 fs ≠ [] := by
  induction keys with
  | nil => intro fs h; exact h
  | cons key t ih => intro fs h; exact ih _ (scrubStep1_ne_nil fs key h)

theorem foldl_scrubStep1_notin (keys : List String) (k : String) (hk : k ∉ keys) :
    ∀ fs : List (String × JVal), alGet (keys.foldl scrubStep1 fs) k = alGet fs k := by
  induction keys with
  | nil => intro fs; rfl
  | cons key t ih =>
    intro fs
    have hne : key ≠ k := fun hc => hk (hc ▸ List.mem_cons_self key t)
    have hnt : k ∉ t := fun hc => hk (List.mem_cons_of_mem key hc)
    rw [List.foldl_cons, ih hnt, scrubStep1_other fs key k hne]

theorem foldl_scrubStep1_in (keys : List String) (k : String) (xs : List JVal)
    (hk : k ∈ keys) (hnd : keys.Nodup) :
    ∀ fs : List (String × JVal), alGet fs k = some (.arr xs) →
      alGet (keys.foldl scrubStep1 fs) k = some (.arr (xs.map scrubElem)) := by
  induction keys with
  | nil => exact absurd hk (by simp)
  | cons key t ih =>
    intro fs hv
    rcases List.mem_cons.mp hk with hke | hkt
    · subst hke
      have hnt : k ∉ t := (List.nodup_cons.mp hnd).1
      rw [List.foldl_cons, foldl_scrubStep1_notin t k hnt]
      unfold scrubStep1
      rw [hv]
      rw [alGet_alSet, if_pos rfl]
    · have hne : key ≠ k := by
        intro hc
        subst hc
        exact (List.nodup_cons.mp hnd).1 hkt
      rw [List.foldl_cons]
      exact ih hkt (List.nodup_cons.mp hnd).2 _
        ((scrubStep1_other fs key k hne).trans hv)

/-- Inversion of a successful `normalize_record`: the stage results and the
shape of the document payload. -/
theorem normalize_ok_inversion (src : Source) (r : RawRecord) (now : String) (seq : Nat)
    (since : Option String) (doc : Doc) (sl : String)
    (h : normalize_record src r now seq since = .ok (.okRes doc sl)) :
    ∃ title link fields,
      resolveTitle r = .ok title ∧ title ≠ "" ∧
      resolveLink src r = .ok link ∧
      buildPayload (choose_type src) (src.mapping.getD []) r title link = .ok (.obj fields) ∧
      alGet doc "payload" = some (.obj (scrubFields fields)) ∧
      alGet doc "type" = some (.str (choose_type src)) := by
  unfold normalize_record at h
  cases h1 : resolveTitle r with
  | error e => rw [h1] at h; exact absurd h (by simp)
  | ok title =>
    rw [h1] at h
    simp only [] at h
    by_cases ht : title = ""
    · rw [if_pos ht] at h
      exact absurd (Except.ok.inj h) (by simp)
    · rw [if_neg ht] at h
      cases h2 : resolveLink src r with
      | error e => rw [h2] at h; exact absurd h (by simp)
      | ok link =>
        rw [h2] at h
        simp only [] at h
        cases h3 : resolveRawDeadline r with
        | error e => rw [h3] at h; exact absurd h (by simp)
        | ok rawdl =>
          rw [h3] at h
          simp only [] at h
          cases h4 : resolveDatePub r now with
          | error e => rw [h4] at h; exact absurd h (by simp)
          | ok datePub =>
            rw [h4] at h
            simp only [] at h
            have hrest : normalizeRest src r now seq title (make_slug title) link
                ((parse_date rawdl).getD "") datePub = .ok (.okRes doc sl) := by
              cases hs : since with
              | none => rw [hs] at h; exact h
              | some sd =>
                rw [hs] at h
                simp only [] at h
                by_cases hlt : pyLt datePub sd = true
                · rw [if_pos hlt] at h
                  exact absurd (Except.ok.inj h) (by simp)
                · rw [if_neg hlt] at h
                  exact h
            clear h
            unfold normalizeRest at hrest
            cases h5 : resolveSubtitle r with
            | error e => rw [h5] at hrest; exact absurd hrest (by simp)
            | ok subtitle =>
              rw [h5] at hrest
              simp only [] at hrest
              cases h6 : buildPayload (choose_type src) (src.mapping.getD []) r title link with
              | error e => rw [h6] at hrest; exact absurd hrest (by simp)
              | ok payload0 =>
                rw [h6] at hrest
                simp only [] at hrest
                cases payload0 with
                | obj fields =>
                  simp only [scrubStep] at hrest
                  cases h8 : validate_common [
                      ("id", .str (build_id datePub
                        (make_slug (if make_slug title = "" then title else make_slug title)) seq)),
                      ("type", .str (choose_type src)),
                      ("title", .str title),
                      ("subtitle", .str subtitle),
                      ("tags", mget (src.mapping.getD []) "tags" (.arr (resolveTags r))),
                      ("date_published", .str datePub),
                      ("deadline", .str ((parse_date rawdl).getD "")),
                      ("last_checked_at", .str now),
                      ("source_name", .str (pyOptOr src.sourceName src.id)),
                      ("source_url", .str link),
                      ("payload", .obj (scrubFields fields))] with
                  | some f => rw [h8] at hrest; exact absurd (Except.ok.inj hrest) (by simp)
                  | none =>
                    rw [h8] at hrest
                    have hd := Except.ok.inj hrest
                    have hdoc := (NormRes.okRes.inj hd).1
                    refine ⟨title, link, fields, rfl, ht, rfl, h6, ?_, ?_⟩
                    · rw [← hdoc]; rfl
                    · rw [← hdoc]; rfl
                | null => simp [scrubStep] at hrest
                | bool b => simp [scrubStep] at hrest
                | num n => simp [scrubStep] at hrest
                | str s2 => simp [scrubStep] at hrest
                | arr l2 => simp [scrubStep] at hrest


/-- The payload of a successfully normalized record (`none` when the record
was rejected or raised). -/
def normPayload (src : Source) (r : RawRecord) (now : String) (seq : Nat)
    (since : Option String) : Option JVal :=
  match normalize_record src r now seq since with
  | .ok (.okRes doc _) => alGet doc "payload"
  | _ => none

/-- One field of the payload of a successfully normalized record. -/
def normPayloadField (src : Source) (r : RawRecord) (now : String) (seq : Nat)
    (since : Option String) (k : String) : Option JVal :=
  match normPayload src r now seq since with
  | some (.obj fs) => alGet fs k
  | _ => none

/-- A notice source. -/
def srcNoticeC : Source :=
  { id := "campus", type := "api", url := "https://e.x/f", postType := some "notice" }

/-- An activity source. -/
def srcActC : Source :=
  { id := "club", type := "api", url := "https://e.x/f", postType := some "activity" }

/-- C4 (counterexample): the notice record `{"title": "Hello"}` is accepted
by `normalize_record` (its payload lookup succeeds), yet its payload is the
empty mapping — the claim's "never empty" fails for the notice/event
pass-through. -/
theorem c4_payload_cex :
    normPayload srcNoticeC [("title", .str "Hello")] "2025-10-12" 1 none =
      some (.obj []) := rfl

/-- C4 (amended): for every record `normalize_record` accepts whose category
is one of job, scholarship, activity, grad, the document payload is a
non-empty mapping; for notice/event the pass-through payload may be empty. -/
theorem c4_payload_nonempty (src : Source) (r : RawRecord) (now : String) (seq : Nat)
    (since : Option String) (doc : Doc) (sl : String)
    (h : normalize_record src r now seq since = .ok (.okRes doc sl))
    (hty : choose_type src = "job" ∨ choose_type src = "scholarship" ∨
      choose_type src = "activity" ∨ choose_type src = "grad") :
    ∃ fields, alGet doc "payload" = some (.obj fields) ∧ fields ≠ [] := by
  obtain ⟨title, link, fields, h1, ht, h2, h6, hpay, htyp⟩ :=
    normalize_ok_inversion src r now seq since doc sl h
  refine ⟨scrubFields fields, hpay, ?_⟩
  rw [scrubFields_eq_foldl]
  refine foldl_scrubStep1_ne_nil scrubKeys fields ?_
  rcases hty with hc | hc | hc | hc <;> rw [hc] at h6 <;>
    unfold buildPayload at h6
  · rw [if_pos rfl] at h6
    cases hau : toHttpsJ (jOr (jGet r "apply_url") (.str link)) with
    | error e => rw [hau] at h6; exact absurd h6 (by simp)
    | ok au =>
      rw [hau] at h6
      simp only [] at h6
      have := (JVal.obj.inj (Except.ok.inj h6)).symm
      rw [this]
      simp
  · rw [if_neg (by decide), if_pos rfl] at h6
    have := (JVal.obj.inj (Except.ok.inj h6)).symm
    rw [this]
    simp
  · rw [if_neg (by decide), if_neg (by decide), if_pos rfl] at h6
    have := (JVal.obj.inj (Except.ok.inj h6)).symm
    rw [this]
    simp
  · rw [if_neg (by decide), if_neg (by decide), if_neg (by decide), if_pos rfl] at h6
    have := (JVal.obj.inj (Except.ok.inj h6)).symm
    rw [this]
    simp

/-- C4 (witness): a minimal activity record is accepted and its payload has
the seven fixed activity keys, hence is non-empty. -/
theorem c4_payload_nonempty_witness :
    normPayload srcActC [("title", .str "Hi")] "2025-10-12" 1 none ≠ some (.obj []) := by
  obtain ⟨fields, hpay, hne⟩ :=
    c4_payload_nonempty srcActC [("title", .str "Hi")] "2025-10-12" 1 none _ _ rfl
      (Or.inr (Or.inr (Or.inl rfl)))
  intro hcon
  have hpv : normPayload srcActC [("title", .str "Hi")] "2025-10-12" 1 none =
      some (.obj fields) := by
    unfold normPayload
    have hn : normalize_record srcActC [("title", .str "Hi")] "2025-10-12" 1 none =
        .ok (.okRes [
          ("id", .str "ime-2025-10-12-0001"),
          ("type", .str "activity"),
          ("title", .str "Hi"),
          ("subtitle", .str ""),
          ("tags", .arr []),
          ("date_published", .str "2025-10-12"),
          ("deadline", .str ""),
          ("last_checked_at", .str "2025-10-12"),
          ("source_name", .str "club"),
          ("source_url", .str "https://e.x/f"),
          ("payload", .obj [
            ("organization", .str ""),
            ("period", .str ""),
            ("location", .str ""),
            ("benefits", .arr []),
            ("requirements", .arr []),
            ("selection", .arr []),
            ("contacts", .arr [])])] "hi") := rfl
    rw [hn]
    exact hpay
  rw [hpv] at hcon
  exact hne (JVal.obj.inj (Option.some.inj hcon))


/-- C2 (counterexample): for an accepted activity record whose `contacts`
list holds the string `"john@acme.com"`, the output payload still contains
that string verbatim in `contacts` (while the scrubber would have redacted
it): the activity `contacts` field is not in the scrub loop's key list. -/
theorem c2_scrub_cex :
    normPayloadField srcActC
        [("title", .str "Hi"), ("contacts", .arr [.str "john@acme.com"])]
        "2025-10-12" 1 none "contacts" = some (.arr [.str "john@acme.com"]) ∧
    containsEmailLike "john@acme.com" = true ∧
    scrub_pii "john@acme.com" = "[redacted]" :=
  ⟨rfl, by decide, rfl⟩

/-- C2 (amended): for every record `normalize_record` accepts, the document
payload is exactly the category payload with the seven keys `requirements`,
`nice_to_have`, `documents`, `apply_steps`, `notes`, `benefits`, `selection`
scrubbed element-wise (each list element replaced by
`scrub_pii(str(element))`), and with every other payload field — including
the activity `contacts` field and notice/event pass-through fields — left
unchanged. -/
theorem c2_scrub_spec (src : Source) (r : RawRecord) (now : String) (seq : Nat)
    (since : Option String) (doc : Doc) (sl : String) (title link : String)
    (fields : List (String × JVal))
    (h : normalize_record src r now seq since = .ok (.okRes doc sl))
    (ht : resolveTitle r = .ok title)
    (hl : resolveLink src r = .ok link)
    (hb : buildPayload (choose_type src) (src.mapping.getD []) r title link =
      .ok (.obj fields)) :
    alGet doc "payload" = some (.obj (scrubFields fields)) ∧
    (∀ k xs, k ∈ scrubKeys → alGet fields k = some (.arr xs) →
      alGet (scrubFields fields) k = some (.arr (xs.map scrubElem))) ∧
    (∀ k, k ∉ scrubKeys → alGet (scrubFields fields) k = alGet fields k) := by
  obtain ⟨title2, link2, fields2, h1, ht2, h2, h6, hpay, htyp⟩ :=
    normalize_ok_inversion src r now seq since doc sl h
  have et : title = title2 := Except.ok.inj (ht ▸ h1)
  subst et
  have el : link = link2 := Except.ok.inj (hl ▸ h2)
  subst el
  have ef : fields = fields2 := JVal.obj.inj (Except.ok.inj (hb ▸ h6))
  subst ef
  refine ⟨hpay, ?_, ?_⟩
  · intro k xs hk hv
    rw [scrubFields_eq_foldl]
    exact foldl_scrubStep1_in scrubKeys k xs hk (by decide) fields hv
  · intro k hk
    rw [scrubFields_eq_foldl]
    exact foldl_scrubStep1_notin scrubKeys k hk fields

/-- C2 (witness): on an activity record with an email inside `requirements`,
the output `requirements` list is the element-wise scrubbed one. -/
theorem c2_scrub_spec_witness :
    normPayloadField srcActC
        [("title", .str "Hi"), ("requirements", .arr [.str "mail john@acme.com"])]
        "2025-10-12" 1 none "requirements" = some (.arr [.str "mail [redacted]"]) := by
  obtain ⟨hpay, hin, hout⟩ :=
    c2_scrub_spec srcActC
      [("title", .str "Hi"), ("requirements", .arr [.str "mail john@acme.com"])]
      "2025-10-12" 1 none _ _ _ _ _ rfl rfl rfl rfl
  have hreq := hin "requirements" [.str "mail john@acme.com"] (by decide) rfl
  unfold normPayloadField normPayload
  rw [show normalize_record srcActC
      [("title", .str "Hi"), ("requirements", .arr [.str "mail john@acme.com"])]
      "2025-10-12" 1 none = .ok (.okRes [
        ("id", .str "ime-2025-10-12-0001"),
        ("type", .str "activity"),
        ("title", .str "Hi"),
        ("subtitle", .str ""),
        ("tags", .arr []),
        ("date_published", .str "2025-10-12"),
        ("deadline", .str ""),
        ("last_checked_at", .str "2025-10-12"),
        ("source_name", .str "club"),
        ("source_url", .str "https://e.x/f"),
        ("payload", .obj [
          ("organization", .str ""),
          ("period", .str ""),
          ("location", .str ""),
          ("benefits", .arr []),
          ("requirements", .arr [.str "mail [redacted]"]),
          ("selection", .arr []),
          ("contacts", .arr [])])] "hi") from rfl]
  exact rfl


-- ---------------------------------------------------------------------------
-- C5: the since filter and the failure sink.
-- ---------------------------------------------------------------------------

/-- Run parameters with a since filter set. -/
def argsW : Args :=
  { since := some "2020-01-01", max_per_source := 100, limit := 1000, dry_run := false }

/-- C5 (counterexample): a record with no title and resolved publish date
1999-01-01, strictly before the since date 2020-01-01, does not fail with
`SinceFilter` — the empty-title check fires first with kind `Normalize`, and
the record IS appended to the failure sink. -/
theorem c5_since_cex :
    resolveDatePub [("published", .str "1999-01-01")] "2025-10-12" = .ok "1999-01-01" ∧
    pyLt "1999-01-01" "2020-01-01" = true ∧
    normalize_record srcNoRL [("published", .str "1999-01-01")] "2025-10-12" 1
        (some "2020-01-01") =
      .ok (.errRes ⟨"Normalize", "제목이 비어 있어 건너뜁니다.", "missing title",
        [("source", "a")]⟩) ∧
    processRecord argsW srcNoRL "2025-10-12" (initSt []) [("published", .str "1999-01-01")] =
      .ok ⟨1, 0, false, [⟨"a", ⟨"Normalize", "제목이 비어 있어 건너뜁니다.", "missing title",
        [("source", "a")]⟩⟩], []⟩ :=
  ⟨rfl, by decide, rfl, rfl⟩

/-- C5 (amended): for every raw record that passes title resolution (a
non-empty, well-typed title) and whose resolved publish date is strictly
before the set since date, normalization fails with kind `SinceFilter`; and
the record loop appends a failed record to the failure sink if and only if
its failure kind is not `SinceFilter` (a `SinceFilter` drop leaves the whole
run state — sink, store, counters — unchanged). -/
theorem c5_since_filter :
    (∀ (src : Source) (r : RawRecord) (now : String) (seq : Nat) (sd : String)
      (title link rawdl d : String),
      resolveTitle r = .ok title → title ≠ "" →
      resolveLink src r = .ok link →
      resolveRawDeadline r = .ok rawdl →
      resolveDatePub r now = .ok d → pyLt d sd = true →
      normalize_record src r now seq (some sd) =
        .ok (.errRes ⟨"SinceFilter", "since 이전 게시물", d ++ " < " ++ sd,
          [("source", src.id)]⟩)) ∧
    (∀ (args : Args) (src : Source) (now : String) (st : RunSt) (r : RawRecord) (f : Fail),
      normalize_record src r now st.seq args.since = .ok (.errRes f) →
      (f.kind = "SinceFilter" → processRecord args src now st r = .ok st) ∧
      (f.kind ≠ "SinceFilter" →
        processRecord args src now st r = .ok { st with dead := st.dead ++ [⟨src.id, f⟩] })) := by
  constructor
  · intro src r now seq sd title link rawdl d ht htne hl hrd hd hlt
    unfold normalize_record
    rw [ht]
    simp only []
    rw [if_neg htne, hl]
    simp only []
    rw [hrd]
    simp only []
    rw [hd]
    simp only []
    rw [if_pos hlt]
  · intro args src now st r f hnorm
    constructor
    · intro hk
      unfold processRecord
      rw [hnorm]
      simp only []
      rw [if_neg (by simp [hk])]
    · intro hk
      unfold processRecord
      rw [hnorm]
      simp only []
      rw [if_pos hk]

/-- C5 (witness): a titled record published 1999-01-01 against the since
date 2020-01-01 yields a `SinceFilter` failure, and processing it leaves the
run state untouched; a missing-title record instead appends its `Normalize`
failure to the sink. -/
theorem c5_since_filter_witness :
    normalize_record srcNoRL [("title", .str "Old"), ("published", .str "1999-01-01")]
        "2025-10-12" 1 (some "2020-01-01") =
      .ok (.errRes ⟨"SinceFilter", "since 이전 게시물", "1999-01-01" ++ " < " ++ "2020-01-01",
        [("source", "a")]⟩) ∧
    processRecord argsW srcNoRL "2025-10-12" (initSt [])
        [("title", .str "Old"), ("published", .str "1999-01-01")] = .ok (initSt []) ∧
    processRecord argsW srcNoRL "2025-10-12" (initSt [])
        [("published", .str "1999-01-01")] =
      .ok { initSt [] with dead := [] ++ [⟨"a", ⟨"Normalize", "제목이 비어 있어 건너뜁니다.",
        "missing title", [("source", "a")]⟩⟩] } := by
  have h1 := c5_since_filter.1 srcNoRL
    [("title", .str "Old"), ("published", .str "1999-01-01")] "2025-10-12" 1 "2020-01-01"
    "Old" "https://x.y" "" "1999-01-01" rfl (by decide) rfl rfl rfl (by decide)
  refine ⟨h1, ?_, ?_⟩
  · exact (c5_since_filter.2 argsW srcNoRL "2025-10-12" (initSt [])
      [("title", .str "Old"), ("published", .str "1999-01-01")] _ h1).1 rfl
  · exact (c5_since_filter.2 argsW srcNoRL "2025-10-12" (initSt [])
      [("published", .str "1999-01-01")] _ rfl).2 (by decide)

-- ---------------------------------------------------------------------------
-- C3: the upsert frame property.  The dedupe lookup is by the SUFFIX
-- `-<slug>.json` (plus a leading date), not by the exact name
-- `<date>-<slug>.json` the claim describes; `exactSlugName` is the claim's
-- naming pattern, written from its words.
-- ---------------------------------------------------------------------------

/-- The claim's file-naming pattern `<any-date>-<slug>.json`: a calendar-date
prefix, then `-<slug>.json`, and nothing in between (the length pins the
middle to be empty). -/
def exactSlugName (name slug : String) : Bool :=
  dateDashStart name && (name.data.length = slug.data.length + 16) &&
  pyEnds name ("-" ++ slug ++ ".json")

/-- A successful `find_existing` names an entry of the store. -/
theorem find_existing_some (store : Store) (slug path : String)
    (h : find_existing store slug = some path) : ∃ d, (path, d) ∈ store := by
  unfold find_existing at h
  cases hf : store.find? fun nd => pyEnds nd.1 ("-" ++ slug ++ ".json") && dateDashStart nd.1 with
  | none => rw [hf] at h; exact Option.noConfusion h
  | some nd =>
    rw [hf] at h
    have h2 : nd.1 = path := Option.some.inj h
    refine ⟨nd.2, ?_⟩
    rw [← h2]
    simpa using List.mem_of_find?_eq_some hf

/-- Replacing at a name already present leaves the file-name list unchanged. -/
theorem storeSet_fst (store : Store) (path : String) (doc : Doc)
    (h : ∃ d, (path, d) ∈ store) :
    (storeSet store path doc).map Prod.fst = store.map Prod.fst := by
  induction store with
  | nil => obtain ⟨d, hd⟩ := h; simp at hd
  | cons e t ih =>
    obtain ⟨n, dd⟩ := e
    by_cases hn : n = path
    · subst hn; simp [storeSet]
    · obtain ⟨d, hd⟩ := h
      rcases List.mem_cons.mp hd with h1 | h1
      · exact absurd (congrArg Prod.fst h1).symm hn
      · simp only [storeSet, if_neg hn, List.map_cons]
        rw [ih ⟨d, h1⟩]

/-- After `storeSet`, reading back the written name yields the new document. -/
theorem getFirst_storeSet_self (store : Store) (path : String) (doc : Doc) :
    getFirst (storeSet store path doc) path = some doc := by
  induction store with
  | nil => simp [storeSet, getFirst]
  | cons e t ih =>
    obtain ⟨n, dd⟩ := e
    by_cases hn : n = path
    · subst hn; simp [storeSet, getFirst]
    · simp only [storeSet, if_neg hn, getFirst]
      exact ih

/-- `storeSet` leaves every other file untouched. -/
theorem getFirst_storeSet_other (store : Store) (path nm : String) (doc : Doc)
    (h : nm ≠ path) :
    getFirst (storeSet store path doc) nm = getFirst store nm := by
  induction store with
  | nil =>
    simp only [storeSet, getFirst]
    rw [if_neg fun hc => h hc.symm]
  | cons e t ih =>
    obtain ⟨n, dd⟩ := e
    by_cases hn : n = path
    · subst hn
      simp only [storeSet, if_pos rfl, getFirst]
      rw [if_neg fun hc => h hc.symm, if_neg fun hc => h hc.symm]
    · simp only [storeSet, if_neg hn, getFirst]
      by_cases h2 : n = nm
      · rw [if_pos h2, if_pos h2]
      · rw [if_neg h2, if_neg h2]; exact ih

/-- Reduction of the upsert when the dedupe lookup found a file. -/
theorem upsertStep_some (st : RunSt) (doc : Doc) (slug now path : String)
    (h : find_existing st.store slug = some path) :
    upsertStep st doc slug now false =
      { st with
        store := storeSet st.store path
          (if jTruthy (jGet doc "deadline") then
            alSet (alSet ((getFirst st.store path).getD []) "last_checked_at" (.str now))
              "deadline" (jGet doc "deadline")
          else alSet ((getFirst st.store path).getD []) "last_checked_at" (.str now)),
        total := st.total + 1 } := by
  unfold upsertStep
  rw [h]
  by_cases hd : jTruthy (jGet doc "deadline") = true <;> simp [hd]

/-- Reduction of the upsert when no stored file matched. -/
theorem upsertStep_none (st : RunSt) (doc : Doc) (slug now : String)
    (h : find_existing st.store slug = none) :
    upsertStep st doc slug now false =
      { st with
        store := st.store ++ [(pyStr (jGet doc "date_published") ++ "-" ++ slug ++ ".json", doc)],
        total := st.total + 1, seq := st.seq + 1 } := by
  unfold upsertStep
  rw [h]
  rfl

/-- A run state whose store holds one file whose name exactly fits the
claim's pattern for slug `bar`. -/
def stC3a : RunSt :=
  ⟨1, 0, false, [], [("2025-01-01-bar.json", [("id", .str "x"), ("note", .str "keep")])]⟩

/-- A run state whose store holds one file for the LONGER slug `foo-bar`. -/
def stC3b : RunSt :=
  ⟨1, 0, false, [],
    [("2025-01-01-foo-bar.json", [("id", .str "x"), ("date_published", .str "2025-01-01")])]⟩

/-- An incoming document dated 2025-10-12 with a truthy deadline. -/
def docC3 : Doc :=
  [("date_published", .str "2025-10-12"), ("deadline", .str "2025-12-01")]

/-- C3 (counterexample): with slug `bar`, no stored file is named
`<date>-bar.json` — the only file is `2025-01-01-foo-bar.json`, which does
not fit the claim's pattern — yet the upsert merge-updates that file instead
of writing the promised fresh `2025-10-12-bar.json`, because the dedupe
lookup matches by the suffix `-bar.json`. -/
theorem c3_upsert_cex :
    exactSlugName "2025-01-01-foo-bar.json" "bar" = false ∧
    stC3b.store.map Prod.fst = ["2025-01-01-foo-bar.json"] ∧
    find_existing stC3b.store "bar" = some "2025-01-01-foo-bar.json" ∧
    (upsertStep stC3b docC3 "bar" "2025-10-12" false).store.map Prod.fst =
      ["2025-01-01-foo-bar.json"] ∧
    getFirst (upsertStep stC3b docC3 "bar" "2025-10-12" false).store "2025-10-12-bar.json" =
      none :=
  ⟨by decide, rfl, rfl, rfl, rfl⟩

/-- C3 (amended): when the dedupe lookup finds a stored file (first name with
a date prefix ending in `-<slug>.json`), the upsert keeps every file name,
touches no other file, and in the matched file sets `last_checked_at` to the
run date, overwrites `deadline` exactly when the new document's deadline is
truthy, and preserves every other stored field; the total grows by one and
the id sequence does not.  When the lookup finds nothing, the new document
is appended verbatim under `<date_published>-<slug>.json` and the id
sequence advances. -/
theorem c3_upsert_frame :
    (∀ st doc slug now path,
      find_existing st.store slug = some path →
      (upsertStep st doc slug now false).store.map Prod.fst = st.store.map Prod.fst ∧
      (∀ nm, nm ≠ path →
        getFirst (upsertStep st doc slug now false).store nm = getFirst st.store nm) ∧
      (∃ cur', getFirst (upsertStep st doc slug now false).store path = some cur' ∧
        alGet cur' "last_checked_at" = some (.str now) ∧
        (jTruthy (jGet doc "deadline") = true →
          alGet cur' "deadline" = some (jGet doc "deadline")) ∧
        (jTruthy (jGet doc "deadline") = false →
          alGet cur' "deadline" = alGet ((getFirst st.store path).getD []) "deadline") ∧
        (∀ k, k ≠ "last_checked_at" → k ≠ "deadline" →
          alGet cur' k = alGet ((getFirst st.store path).getD []) k)) ∧
      (upsertStep st doc slug now false).total = st.total + 1 ∧
      (upsertStep st doc slug now false).seq = st.seq ∧
      (upsertStep st doc slug now false).dead = st.dead) ∧
    (∀ st doc slug now,
      find_existing st.store slug = none →
      (upsertStep st doc slug now false).store =
        st.store ++ [(pyStr (jGet doc "date_published") ++ "-" ++ slug ++ ".json", doc)] ∧
      (upsertStep st doc slug now false).total = st.total + 1 ∧
      (upsertStep st doc slug now false).seq = st.seq + 1 ∧
      (upsertStep st doc slug now false).dead = st.dead) := by
  constructor
  · intro st doc slug now path h
    rw [upsertStep_some st doc slug now path h]
    refine ⟨storeSet_fst _ _ _ (find_existing_some _ _ _ h),
      fun nm hnm => getFirst_storeSet_other _ _ _ _ hnm,
      ⟨_, getFirst_storeSet_self _ _ _, ?_, ?_, ?_, ?_⟩, rfl, rfl, rfl⟩
    · by_cases hd : jTruthy (jGet doc "deadline") = true
      · rw [if_pos hd, alGet_alSet, if_neg (by decide), alGet_alSet, if_pos rfl]
      · rw [if_neg hd, alGet_alSet, if_pos rfl]
    · intro hd
      rw [if_pos hd, alGet_alSet, if_pos rfl]
    · intro hd
      rw [if_neg (by simp [hd]), alGet_alSet, if_neg (by decide)]
    · intro k hk1 hk2
      by_cases hd : jTruthy (jGet doc "deadline") = true
      · rw [if_pos hd, alGet_alSet, if_neg fun hc => hk2 hc.symm,
          alGet_alSet, if_neg fun hc => hk1 hc.symm]
      · rw [if_neg hd, alGet_alSet, if_neg fun hc => hk1 hc.symm]
  · intro st doc slug now h
    rw [upsertStep_none st doc slug now h]
    exact ⟨rfl, rfl, rfl, rfl⟩

/-- C3 (witness): with `2025-01-01-bar.json` stored, an upsert for slug `bar`
keeps the single file name; against an empty store it writes
`2025-10-12-bar.json`. -/
theorem c3_upsert_frame_witness :
    find_existing stC3a.store "bar" = some "2025-01-01-bar.json" ∧
    (upsertStep stC3a docC3 "bar" "2025-10-12" false).store.map Prod.fst =
      ["2025-01-01-bar.json"] ∧
    find_existing (initSt []).store "bar" = none ∧
    (upsertStep (initSt []) docC3 "bar" "2025-10-12" false).store =
      [("2025-10-12-bar.json", docC3)] := by
  refine ⟨rfl, ?_, rfl, ?_⟩
  · exact ((c3_upsert_frame.1 stC3a docC3 "bar" "2025-10-12" "2025-01-01-bar.json" rfl).1).trans
      rfl
  · exact ((c3_upsert_frame.2 (initSt []) docC3 "bar" "2025-10-12" rfl).1).trans rfl

-- ---------------------------------------------------------------------------
-- C8: the global cap.  `total_written` grows by at most one per record, and
-- both loops check `total_written >= args.limit` before doing anything.
-- ---------------------------------------------------------------------------

/-- The upsert counts exactly one processed item, in both branches. -/
theorem upsertStep_total (st : RunSt) (doc : Doc) (slug now : String) (dr : Bool) :
    (upsertStep st doc slug now dr).total = st.total + 1 := by
  unfold upsertStep
  cases find_existing st.store slug <;> rfl

/-- One record grows the processed-item count by at most one. -/
theorem processRecord_total_le (args : Args) (src : Source) (now : String)
    (st : RunSt) (r : RawRecord) (st' : RunSt)
    (h : processRecord args src now st r = .ok st') : st'.total ≤ st.total + 1 := by
  unfold processRecord at h
  cases hn : normalize_record src r now st.seq args.since with
  | error e => rw [hn] at h; exact Except.noConfusion h
  | ok nr =>
    rw [hn] at h
    cases nr with
    | errRes f =>
      simp only [] at h
      by_cases hk : f.kind ≠ "SinceFilter"
      · rw [if_pos hk] at h
        cases h
        exact Nat.le_succ _
      · rw [if_neg hk] at h
        cases h
        exact Nat.le_succ _
    | okRes doc slug =>
      simp only [] at h
      cases h
      rw [upsertStep_total]

/-- The record loop never pushes the count past the limit. -/
theorem runRecords_le (args : Args) (src : Source) (now : String) :
    ∀ recs st st', runRecords args src now recs st = .ok st' →
      (st.total : Int) ≤ args.limit → (st'.total : Int) ≤ args.limit := by
  intro recs
  induction recs with
  | nil => intro st st' h hle; cases h; exact hle
  | cons r rest ih =>
    intro st st' h hle
    simp only [runRecords] at h
    by_cases hstop : args.limit ≤ (st.total : Int)
    · rw [if_pos hstop] at h; cases h; exact hle
    · rw [if_neg hstop] at h
      cases hp : processRecord args src now st r with
      | error e => rw [hp] at h; exact Except.noConfusion h
      | ok st1 =>
        rw [hp] at h
        simp only [] at h
        have h1 := processRecord_total_le args src now st r st1 hp
        have h2 : (st.total : Int) < args.limit := lt_of_not_le hstop
        exact ih st1 st' h (by omega)

/-- The source loop never pushes the count past the limit. -/
theorem runSources_le (args : Args) (now : String) :
    ∀ inputs st st', runSources args now inputs st = .ok st' →
      (st.total : Int) ≤ args.limit → (st'.total : Int) ≤ args.limit := by
  intro inputs
  induction inputs with
  | nil => intro st st' h hle; cases h; exact hle
  | cons p rest ih =>
    obtain ⟨src, step⟩ := p
    intro st st' h hle
    simp only [runSources] at h
    by_cases hstop : args.limit ≤ (st.total : Int)
    · rw [if_pos hstop] at h; cases h; exact hle
    · rw [if_neg hstop] at h
      cases step with
      | exn msg =>
        simp only [] at h
        exact ih _ st' h hle
      | fetch fo =>
        simp only [] at h
        cases hr : runRecords args src now (collectModel src fo args.max_per_source st.dead).recs { st with dead := (collectModel src fo args.max_per_source st.dead).dead, anyFail := st.anyFail || ((collectModel src fo args.max_per_source st.dead).srcErr ≠ 0) } with
        | error e => rw [hr] at h; exact Except.noConfusion h
        | ok st2 =>
          rw [hr] at h
          exact ih st2 st' h (runRecords_le args src now _ _ st2 hr hle)

/-- C8: for every completed run with a non-negative limit, at most `limit`
items are processed; moreover both loops stop at the cap — with the count
already at the limit, the record loop on a non-empty record list and the
source loop on a non-empty source list return the state unchanged, before
touching the next record or source. -/
theorem c8_global_cap :
    (∀ args now inputs store0 st, 0 ≤ args.limit →
      runMain args now inputs store0 = .ok st → (st.total : Int) ≤ args.limit) ∧
    (∀ args src now st r recs, args.limit ≤ (st.total : Int) →
      runRecords args src now (r :: recs) st = .ok st) ∧
    (∀ args now src step inputs st, args.limit ≤ (st.total : Int) →
      runSources args now ((src, step) :: inputs) st = .ok st) := by
  refine ⟨?_, ?_, ?_⟩
  · intro args now inputs store0 st h0 h
    exact runSources_le args now inputs (initSt store0) st h h0
  · intro args src now st r recs h
    simp only [runRecords]
    rw [if_pos h]
  · intro args now src step inputs st h
    simp only [runSources]
    rw [if_pos h]

/-- Arguments with the global cap set to one item. -/
def argsCap : Args :=
  { since := none, max_per_source := 100, limit := 1, dry_run := false }

/-- The post-run state of the one-source `argsCap` witness run. -/
def stC8 : RunSt :=
  ⟨1, 0, false, [⟨"a", ⟨"Normalize", "제목이 비어 있어 건너뜁니다.", "missing title",
    [("source", "a")]⟩⟩], []⟩

/-- A run state whose processed-item count already sits at the cap of one. -/
def stFull : RunSt := ⟨1, 1, false, [], []⟩

/-- C8 (witness): a completed run with limit 1 ends with at most one item
processed, and with the count at the cap both loops return the state
unchanged on non-empty input. -/
theorem c8_global_cap_witness :
    (0 : Int) ≤ argsCap.limit ∧
    runMain argsCap "2025-10-12" [(srcNoRL, .fetch (.ok [[]]))] [] = .ok stC8 ∧
    (stC8.total : Int) ≤ argsCap.limit ∧
    runRecords argsCap srcNoRL "2025-10-12" [[]] stFull = .ok stFull ∧
    runSources argsCap "2025-10-12" [(srcNoRL, .fetch (.ok []))] stFull = .ok stFull := by
  refine ⟨by decide, rfl, ?_, ?_, ?_⟩
  · exact c8_global_cap.1 argsCap "2025-10-12" [(srcNoRL, .fetch (.ok [[]]))] [] stC8
      (by decide) rfl
  · exact c8_global_cap.2.1 argsCap srcNoRL "2025-10-12" stFull [] [] (by decide)
  · exact c8_global_cap.2.2 argsCap "2025-10-12" srcNoRL (.fetch (.ok [])) [] stFull (by decide)

-- ---------------------------------------------------------------------------
-- C1: the exit code.  Record-level Normalize/Validate failures are appended
-- to the deadletter but never set `any_partial_fail` (lines 595–604 of the
-- source touch the sink only), so a run whose only failures are record-level
-- exits 0 — contradicting the claim and the module docstring's "2 if some
-- records failed".
-- ---------------------------------------------------------------------------

/-- The default run arguments (`--max-per-source 100`, `--limit 1000`). -/
def argsD : Args :=
  { since := none, max_per_source := 100, limit := 1000, dry_run := false }

/-- End state of a run whose single record fails to normalize. -/
def stC1 : RunSt :=
  ⟨1, 0, false, [⟨"a", ⟨"Normalize", "제목이 비어 있어 건너뜁니다.", "missing title",
    [("source", "a")]⟩⟩], []⟩

/-- End state of a run whose single source fails to fetch. -/
def stC1e : RunSt :=
  ⟨1, 0, true, [⟨"a", ⟨"FetchError", "원문을 불러오지 못했습니다.", "boom",
    [("url", "https://x.y")]⟩⟩], []⟩

/-- C1 (code bug): a run whose only failure is record-level — one rss source
fetches fine but its single record `{}` fails normalization (missing title)
and is appended to the deadletter — completes with the partial-failure flag
still false and exit status 0, not the claimed 2; a source-level fetch error,
by contrast, does exit 2. -/
theorem c1_exit_code :
    runMain argsD "2025-10-12" [(srcNoRL, .fetch (.ok [[]]))] [] = .ok stC1 ∧
    stC1.dead.length = 1 ∧
    (stC1.dead.map DLEntry.f).map Fail.kind = ["Normalize"] ∧
    stC1.anyFail = false ∧
    exitCode stC1 = 0 ∧
    runMain argsD "2025-10-12" [(srcNoRL, .fetch (.err "boom"))] [] = .ok stC1e ∧
    exitCode stC1e = 2 :=
  ⟨rfl, rfl, rfl, rfl, rfl, rfl, rfl⟩

end Scrape
